import Mathlib

/-!
Verification of the EMV analyzer core of the labtool repository
(src/app/analyzer/emv/uiemvanalyzer.cpp, uiemvanalyzer.h,
uiemvanalyzerconfig.cpp).

The C++ doubles of the analyzer are modelled as exact rationals; the
implicit conversions double to int use truncation toward zero (cint
below) and the C library round, which rounds half away from zero, is
cround below.  quint8 arithmetic wraps modulo 256 and is written out
explicitly at every place the source decrements an unsigned byte.
-/

namespace LabtoolEmv

/-- C conversion from a floating value to int: truncation toward zero. -/
def cint (q : ℚ) : ℤ := if 0 ≤ q then ⌊q⌋ else ⌈q⌉

/-- The C library round: round half away from zero. -/
def cround (q : ℚ) : ℤ := if 0 ≤ q then ⌊q + 1/2⌋ else ⌈q - 1/2⌉

/-- Helper for popCount, recursing on a fuel bound. -/
def popCountAux : ℕ → ℕ → ℕ
  | 0, _ => 0
  | f + 1, n => if n = 0 then 0 else n % 2 + popCountAux f (n / 2)

/-- Number of set bits of a byte, the loop at uiemvanalyzer.cpp:349-354
(the fuel argument only bounds the recursion; n halves each step, so n
itself is more than enough fuel). -/
def popCount (n : ℕ) : ℕ := popCountAux n n

/-- Types::EmvLogicConvention (common/types.h): Auto, Inverse, Direct. -/
inductive EmvLogicConvention
  | auto | inverse | direct
deriving DecidableEq, Repr

/-- Types::EmvProtocol: Auto, T0, T1. -/
inductive EmvProtocol
  | auto | t0 | t1
deriving DecidableEq, Repr

/-- Types::DataFormat: Hex, Decimal, Ascii. -/
inductive DataFormat
  | hex | dec | ascii
deriving DecidableEq, Repr

/-- EmvItem::DataDirection (uiemvanalyzer.h:136-140). -/
inductive DataDirection
  | unknown | ttlToIcc | iccToTtl
deriving DecidableEq, Repr

/-- The AnalyzerState enum of uiemvanalyzer.cpp:29-52. -/
inductive AnalyzerState
  | atrTs | atrT0 | atrTb1 | atrTc1 | atrHist
  | cmdCla | cmdIns | cmdP1 | cmdP2 | cmdP3 | cmdData
  | respStatus | respIns | respC0 | respData
  | rawBytes | done
deriving DecidableEq, Repr

/-- EmvItem::ItemType (uiemvanalyzer.h:122-134). -/
inductive ItemType
  | characterFrame | commandMessage
  | errorGeneric | errorRate | errorParity | errorTs | errorT0
  | errorProtocol | errorTb1 | errorDirectionGuardTime
deriving DecidableEq, Repr

/-- EmvCommandMessage (uiemvanalyzer.h:24-105).  The malloc-ed Data and
ResponseData buffers are lists of optional bytes: a freshly allocated
buffer holds `none` (uninitialized memory) in every cell. -/
structure EmvCommandMessage where
  Cla : ℕ := 0
  Ins : ℕ := 0
  P1 : ℕ := 0
  P2 : ℕ := 0
  P3 : ℕ := 0
  Data : List (Option ℕ) := []
  Sw1 : ℕ := 0xff
  Sw2 : ℕ := 0xff
  Label : String := ""
  Case : ℕ := 0
  Licc : ℕ := 0
  ResponseData : List (Option ℕ) := []
deriving DecidableEq, Repr

/-- The payload of an EmvItem: an int for character frames and errors, a
command message for TYPE_COMMAND_MESSAGE items. -/
inductive ItemValue
  | intVal (n : ℕ)
  | cmdVal (m : EmvCommandMessage)
deriving DecidableEq, Repr

/-- EmvItem (uiemvanalyzer.h:116-229), with value semantics for the
payload buffer. -/
structure EmvItem where
  type : ItemType
  value : ItemValue
  label : String
  startIdx : ℤ
  stopIdx : ℤ
  direction : DataDirection
deriving DecidableEq, Repr

/-- stateLabel (uiemvanalyzer.cpp:54-71). -/
def stateLabel : AnalyzerState → String
  | .atrTs => "TS"
  | .atrT0 => "T0"
  | .atrTb1 => "TB1"
  | .atrTc1 => "TC1"
  | .atrHist => "Historical Byte"
  | _ => ""

/-- Write one byte into a malloc-ed buffer at a signed offset.  The C
source performs the memcpy unconditionally; an offset outside the
allocation is an out-of-bounds heap write that does not change the
contents of the buffer itself, which is what this model records. -/
def bufWrite (buf : List (Option ℕ)) (i : ℤ) (v : ℕ) : List (Option ℕ) :=
  if 0 ≤ i ∧ i.toNat < buf.length then buf.set i.toNat (some v) else buf

/-- The mutable state of one invocation of UiEmvAnalyzer::analyze: the
analyzer state, the output item list and every local variable of the
decoding loop that lives across iterations.  The C locals commandDone,
error and stateForByte are set and consumed within a single iteration
and are therefore locals of processByte below.  currCommandRemainingData
and currCommandRemainingResponseData are declared without an initializer
in the source; they are modelled as starting at 0 (every read in the
source is preceded by a write on the same path). -/
structure LoopState where
  state : AnalyzerState
  items : List EmvItem
  determinedConvention : EmvLogicConvention
  determinedProtocol : EmvProtocol
  numHistoricalBytes : ℕ
  extraTermToICCGuardTime : ℕ
  iccToTermGuardTime : ℕ
  dataDirection : DataDirection
  pos : ℕ
  lastStartBitIdx : ℤ
  startBitIdx : ℤ
  nextStartBitPos : ℤ
  bitRank : ℕ
  expectDirectionSwitch : Bool
  currByte : ℕ
  currCommand : EmvCommandMessage
  currCommandStartBitIdx : ℤ
  remData : ℕ
  remRespData : ℕ
  currIo : ℕ
deriving DecidableEq, Repr

/-- Append a generic error-style item (int payload, stop index -1) to
the output list, at the current start bit. -/
def emitErr (s : LoopState) (t : ItemType) (v : ℕ) (dd : DataDirection) : List EmvItem :=
  s.items ++ [⟨t, .intVal v, "", s.startBitIdx, -1, dd⟩]

/-- Processing of one parity-validated byte: the body of the
`numSetBits % 2 == 0` branch of UiEmvAnalyzer::analyze
(uiemvanalyzer.cpp:356-732 minus the parity check itself).  The
item directions use the currDataDirection snapshot taken at the top of
the loop iteration; dataDirection is never modified between that
snapshot and this block, so the snapshot is the entry value here.
Returns the updated state.  Note the faithful reproduction of the
source quirks: in the COMMAND_CLA / COMMAND_INS / COMMAND_P1 /
COMMAND_P2 branches the unconditional trailing state assignment
overwrites the STATE_DONE written by the case-4 mismatch error, and in
STATE_RESPONSE_DATA the buffer offset is computed from
currCommandRemainingData (the command-data counter), exactly as in the
source. -/
def dispatchByte (currDD : DataDirection) (s0 : LoopState) : LoopState × Bool × Bool :=
  match s0.state with
  | .atrTs =>
    if s0.currByte = 0x3 then
      ({ s0 with currByte := 0x3f,
                 determinedConvention := .inverse,
                 state := .atrT0 }, false, false)
    else if s0.currByte = 0x3b then
      ({ s0 with determinedConvention := .direct, state := .atrT0 }, false, false)
    else
      ({ s0 with items := emitErr s0 .errorTs 0 currDD, state := .done}, true, false)
  | .atrT0 =>
    if s0.currByte >>> 4 = 0x6 then
      ({ s0 with determinedProtocol := .t0,
                 numHistoricalBytes := s0.currByte &&& 0xf,
                 iccToTermGuardTime := 12,
                 state := .atrTb1 }, false, false)
    else if s0.currByte >>> 4 = 0xe then
      ({ s0 with items := emitErr s0 .errorProtocol 0 currDD, state := .done}, true, false)
    else
      ({ s0 with items := emitErr s0 .errorT0 s0.currByte currDD, state := .done }, true, false)
  | .atrTb1 =>
    if s0.currByte = 0x00 then
      if s0.determinedProtocol = .t0 then
        ({ s0 with state := .atrTc1 }, false, false)
      else
        ({ s0 with state := .done }, false, false)
    else
      ({ s0 with items := emitErr s0 .errorTb1 s0.currByte currDD, state := .done }, true, false)
  | .atrTc1 =>
    let s := { s0 with extraTermToICCGuardTime := s0.currByte }
    if s.numHistoricalBytes > 0 then
      ({ s with state := .atrHist }, false, false)
    else
      ({ s with state := .cmdCla, dataDirection := .ttlToIcc }, false, false)
  | .atrHist =>
    let n := (s0.numHistoricalBytes + 255) % 256
    if n = 0 then
      ({ s0 with numHistoricalBytes := n,
                 state := .cmdCla, dataDirection := .ttlToIcc }, false, false)
    else
      ({ s0 with numHistoricalBytes := n }, false, false)
  | .cmdCla =>
    let s :=
      if s0.currCommand.Case = 0 then
        { s0 with currCommand := {}, currCommandStartBitIdx := s0.startBitIdx }
      else s0
    if s.currCommand.Case = 4 then
      if s.currByte ≠ 0x00 then
        ({ s with items := emitErr s .errorGeneric s.currByte currDD, state := .cmdIns }, true, false)
      else
        ({ s with state := .cmdIns }, false, false)
    else
      ({ s with currCommand := { s.currCommand with Cla := s.currByte },
                state := .cmdIns }, false, false)
  | .cmdIns =>
    if s0.currCommand.Case = 4 then
      if s0.currByte ≠ 0xc0 then
        ({ s0 with items := emitErr s0 .errorGeneric s0.currByte currDD, state := .cmdP1 }, true, false)
      else
        ({ s0 with state := .cmdP1 }, false, false)
    else
      ({ s0 with currCommand := { s0.currCommand with Ins := s0.currByte },
                 state := .cmdP1 }, false, false)
  | .cmdP1 =>
    if s0.currCommand.Case = 4 then
      if s0.currByte ≠ 0x00 then
        ({ s0 with items := emitErr s0 .errorGeneric s0.currByte currDD, state := .cmdP2 }, true, false)
      else
        ({ s0 with state := .cmdP2 }, false, false)
    else
      ({ s0 with currCommand := { s0.currCommand with P1 := s0.currByte },
                 state := .cmdP2 }, false, false)
  | .cmdP2 =>
    if s0.currCommand.Case = 4 then
      if s0.currByte ≠ 0x00 then
        ({ s0 with items := emitErr s0 .errorGeneric s0.currByte currDD, state := .cmdP3 }, true, false)
      else
        ({ s0 with state := .cmdP3 }, false, false)
    else
      ({ s0 with currCommand := { s0.currCommand with P2 := s0.currByte },
                 state := .cmdP3 }, false, false)
  | .cmdP3 =>
    if s0.currCommand.Case = 4 then
      if s0.currByte ≠ s0.currCommand.Licc then
        ({ s0 with items := emitErr s0 .errorGeneric s0.currByte currDD, state := .done, dataDirection := .iccToTtl }, true, false)
      else
        ({ s0 with state := .respC0, dataDirection := .iccToTtl }, false, false)
    else
      let s := { s0 with currCommand := { s0.currCommand with P3 := s0.currByte } }
      let s :=
        if s.currCommand.P3 > 0 then
          { s with
            currCommand := { s.currCommand with Data := List.replicate s.currCommand.P3 none },
            remData := s.currCommand.P3 }
        else s
      if s.currCommand.Case = 2 then
        if s.currCommand.P3 ≠ s.currCommand.Licc then
          ({ s with items := emitErr s .errorGeneric s.currByte currDD, state := .done, dataDirection := .iccToTtl }, true, false)
        else
          ({ s with state := .respIns, dataDirection := .iccToTtl }, false, false)
      else if s.currCommand.P3 = 0 then
        ({ s with
            currCommand := { s.currCommand with Data := [] },
            remData := 0,
            state := .respStatus, dataDirection := .iccToTtl }, false, false)
      else
        ({ s with state := .respIns, dataDirection := .iccToTtl }, false, false)
  | .respStatus =>
    if s0.currCommand.Sw1 = 0xff then
      ({ s0 with currCommand := { s0.currCommand with Sw1 := s0.currByte } }, false, false)
    else if s0.currCommand.Sw2 = 0xff then
      let c := { s0.currCommand with Sw2 := s0.currByte }
      if c.Sw1 = 0x90 ∧ c.Sw2 = 0x00 then
        let c :=
          if c.Case = 0 ∧ c.P3 = 0 then { c with Case := 1 }
          else if c.Case = 0 ∧ c.P3 ≠ 0 then { c with Case := 3 }
          else c
        ({ s0 with currCommand := c, dataDirection := .ttlToIcc }, false, true)
      else if c.Sw1 = 0x6c then
        ({ s0 with
            currCommand := { c with
              Case := 2, Licc := c.Sw2,
              ResponseData := List.replicate c.Sw2 none,
              Sw1 := 0xff, Sw2 := 0xff },
            remRespData := c.Sw2,
            state := .cmdCla, dataDirection := .ttlToIcc }, false, false)
      else if c.Sw1 = 0x61 then
        ({ s0 with
            currCommand := { c with
              Case := 4, Licc := c.Sw2,
              ResponseData := List.replicate c.Sw2 none,
              Sw1 := 0xff, Sw2 := 0xff },
            remRespData := c.Sw2,
            state := .cmdCla, dataDirection := .ttlToIcc }, false, false)
      else
        ({ s0 with currCommand := c, dataDirection := .ttlToIcc }, false, false)
    else
      ({ s0 with items := emitErr s0 .errorGeneric s0.currByte currDD, state := .done }, true, false)
  | .respIns =>
    if s0.currByte ≠ s0.currCommand.Ins then
      ({ s0 with items := emitErr s0 .errorGeneric s0.currByte currDD, state := .done }, true, false)
    else if s0.currCommand.Case = 2 then
      ({ s0 with state := .respData }, false, false)
    else
      ({ s0 with state := .cmdData, dataDirection := .ttlToIcc }, false, false)
  | .respC0 =>
    if s0.currByte ≠ 0xc0 then
      ({ s0 with items := emitErr s0 .errorGeneric s0.currByte currDD, state := .done }, true, false)
    else
      ({ s0 with state := .respData }, false, false)
  | .respData =>
    -- uiemvanalyzer.cpp:665: the offset uses currCommandRemainingData,
    -- the command-data counter, not currCommandRemainingResponseData.
    let c := { s0.currCommand with
               ResponseData := bufWrite s0.currCommand.ResponseData
                 ((s0.currCommand.Licc : ℤ) - (s0.remData : ℤ)) s0.currByte }
    let r := (s0.remRespData + 255) % 256
    if r = 0 then
      ({ s0 with currCommand := c, remRespData := r, state := .respStatus }, false, false)
    else
      ({ s0 with currCommand := c, remRespData := r }, false, false)
  | .cmdData =>
    let c := { s0.currCommand with
               Data := bufWrite s0.currCommand.Data
                 ((s0.currCommand.P3 : ℤ) - (s0.remData : ℤ)) s0.currByte }
    let r := (s0.remData + 255) % 256
    if r = 0 then
      ({ s0 with currCommand := c, remData := r,
                 state := .respStatus, dataDirection := .iccToTtl }, false, false)
    else
      ({ s0 with currCommand := c, remData := r }, false, false)
  | _ => (s0, false, false)

/-- Glue around the state dispatch: the commandDone block and the
character-frame emission (uiemvanalyzer.cpp:683-725). -/
def processByte (etu : ℚ) (rate : ℕ) (s0 : LoopState) : LoopState :=
  let currDD := s0.dataDirection
  let stateForByte := s0.state
  let stopForItem : ℤ := cint ((s0.pos : ℚ) + etu * (rate : ℚ))
  let disp := dispatchByte currDD s0
  let s1 := disp.1
  let error := disp.2.1
  let commandDone := disp.2.2
  -- the commandDone block (uiemvanalyzer.cpp:683-710)
  let s2 :=
    if commandDone then
      let label :=
        if s1.currCommand.Cla = 0x00 ∧ s1.currCommand.Ins = 0xa4 then "SELECT"
        else if s1.currCommand.Cla = 0x00 ∧ s1.currCommand.Ins = 0xb2 then "READ RECORD"
        else "UNKNOWN"
      let c := { s1.currCommand with Label := label }
      { s1 with
        items := s1.items ++
          [⟨.commandMessage, .cmdVal c, "Command Message",
            s1.currCommandStartBitIdx, stopForItem, currDD⟩],
        currCommand := {},
        dataDirection := .ttlToIcc,
        state := .cmdCla }
    else s1
  -- character frame emission (uiemvanalyzer.cpp:712-725)
  if error = false then
    { s2 with
      items := s2.items ++
        [⟨.characterFrame, .intVal s2.currByte, stateLabel stateForByte,
          s2.startBitIdx, stopForItem, currDD⟩],
      lastStartBitIdx := s2.startBitIdx,
      startBitIdx := -1,
      bitRank := 0,
      currByte := 0 }
  else s2

/-- Byte-level view of the state machine: consume one already decoded
byte (timing and parity assumed valid). -/
def consume (etu : ℚ) (rate : ℕ) (s : LoopState) (b : ℕ) : LoopState :=
  processByte etu rate { s with currByte := b }

/-- Consume a list of decoded bytes in order. -/
def consumeAll (etu : ℚ) (rate : ℕ) (s : LoopState) (bs : List ℕ) : LoopState :=
  bs.foldl (consume etu rate) s

/-- One sample position while RESET is asserted: start-bit detection or
bit sampling (uiemvanalyzer.cpp:304-735).  ioV is ioData->at(pos), the
value also stored into currIo by the caller. -/
def sampleBody (etu : ℚ) (rate : ℕ) (ioV : ℕ) (s : LoopState) : LoopState :=
  if s.startBitIdx = -1 then
    if s.nextStartBitPos ≤ (s.pos : ℤ) ∧ ioV = 0 then
      let s1 := { s with
        startBitIdx := (s.pos : ℤ),
        nextStartBitPos := cint ((s.pos : ℚ) + (s.iccToTermGuardTime : ℚ) * etu * (rate : ℚ)),
        bitRank := 1 }
      let s2 :=
        if s1.expectDirectionSwitch then
          if s1.lastStartBitIdx ≠ -1 ∧
             (s1.pos : ℤ) - s1.lastStartBitIdx < cint (16 * etu * (rate : ℚ)) then
            { s1 with
              state := .done,
              items := s1.items ++
                [⟨.errorDirectionGuardTime, .intVal 0, "", (s1.pos : ℤ), -1, s1.dataDirection⟩] }
          else s1
        else s1
      { s2 with expectDirectionSwitch := false }
    else s
  else
    let nextBitPos : ℤ :=
      cround (((s.startBitIdx : ℚ) * (1 / (rate : ℚ)) + ((s.bitRank : ℚ) + 1/2) * etu) * (rate : ℚ))
    let nextBitPosTolerance : ℤ := cround (1/5 * etu * (rate : ℚ))
    if |(s.pos : ℤ) - nextBitPos| ≤ nextBitPosTolerance then
      if 1 ≤ s.bitRank ∧ s.bitRank ≤ 8 then
        if s.determinedConvention = .inverse then
          let bitToWrite : ℕ := if ioV = 0 then 1 else 0
          { s with currByte := s.currByte ||| (bitToWrite <<< (8 - s.bitRank)),
                   bitRank := s.bitRank + 1 }
        else
          { s with currByte := s.currByte ||| (ioV <<< (s.bitRank - 1)),
                   bitRank := s.bitRank + 1 }
      else if s.bitRank = 9 then
        if (ioV + popCount s.currByte) % 2 = 0 then
          processByte etu rate s
        else
          { s with
            state := .done,
            items := s.items ++ [⟨.errorParity, .intVal 0, "", s.startBitIdx, -1, s.dataDirection⟩] }
      else s
    else s

/-- One iteration of the decoding while loop (uiemvanalyzer.cpp:295-744):
the RESET gate, the sample body, the direction-switch arming at the
bottom of the loop and the position increment. -/
def analyzeStep (ioD rstD : List ℕ) (rate : ℕ) (etu : ℚ) (s : LoopState) : LoopState :=
  let currDD := s.dataDirection
  let s1 :=
    if rstD.getD s.pos 0 = 1 then
      sampleBody etu rate (ioD.getD s.pos 0) { s with currIo := ioD.getD s.pos 0 }
    else s
  let s2 := if s1.dataDirection ≠ currDD then { s1 with expectDirectionSwitch := true } else s1
  { s2 with pos := s2.pos + 1 }

/-- Fuel-indexed run of the while loop.  The loop exits on STATE_DONE or
when the position passes either sample buffer; since the position grows
by one every iteration, fuel covering the buffer lengths makes this the
exact loop of the source. -/
def analyzeLoop (ioD rstD : List ℕ) (rate : ℕ) (etu : ℚ) : ℕ → LoopState → LoopState
  | 0, s => s
  | n + 1, s =>
    if s.state = .done then s
    else if s.pos ≥ ioD.length ∨ s.pos ≥ rstD.length then s
    else analyzeLoop ioD rstD rate etu n (analyzeStep ioD rstD rate etu s)

/-- The configuration fields of UiEmvAnalyzer that analysis and the
settings string use. -/
structure EmvConfig where
  ioSignalId : ℤ := -1
  rstSignalId : ℤ := -1
  clkFreq : ℤ := -1
  logicConvention : EmvLogicConvention := .auto
  protocol : EmvProtocol := .auto
  format : DataFormat := .hex
  name : List Char := []
deriving DecidableEq, Repr

/-- The initial loop state of one analyze pass, after the configuration
resolution prelude (uiemvanalyzer.cpp:238-293) with a given initial
analyzer state and item list. -/
def initialLoopState (st : AnalyzerState) (its : List EmvItem)
    (dConv : EmvLogicConvention) (dProt : EmvProtocol) (guard : ℕ)
    (ioD : List ℕ) : LoopState :=
  { state := st, items := its,
    determinedConvention := dConv, determinedProtocol := dProt,
    numHistoricalBytes := 0, extraTermToICCGuardTime := 0,
    iccToTermGuardTime := guard, dataDirection := .iccToTtl,
    pos := 0, lastStartBitIdx := -1, startBitIdx := -1, nextStartBitPos := 0,
    bitRank := 0, expectDirectionSwitch := false, currByte := 0,
    currCommand := {}, currCommandStartBitIdx := -1,
    remData := 0, remRespData := 0, currIo := ioD.getD 0 0 }

/-- UiEmvAnalyzer::analyze (uiemvanalyzer.cpp:218-746).  Returns the
produced item list together with the value of the mProtocol member after
the call (the pass mutates it when the configured convention is Auto).
ioD and rstD are the captured digital data of the selected signals,
rate is the effective sample rate of the capture device. -/
def analyze (cfg : EmvConfig) (ioD rstD : List ℕ) (rate : ℕ) :
    List EmvItem × EmvProtocol :=
  if cfg.ioSignalId = -1 ∨ cfg.rstSignalId = -1 then ([], cfg.protocol)
  else if ioD.length = 0 ∨ rstD.length = 0 then ([], cfg.protocol)
  else if cfg.clkFreq = -1 then ([], cfg.protocol)
  else
    let etu : ℚ := 372 / (cfg.clkFreq : ℚ)
    let minSampleRate : ℤ := cint (1 + 1 / (etu * (1/5)))
    -- convention/protocol resolution (uiemvanalyzer.cpp:242-256)
    let protocolField : EmvProtocol :=
      if cfg.logicConvention = .auto then .auto else cfg.protocol
    let state0 : AnalyzerState :=
      if cfg.logicConvention = .auto then .atrTs
      else if cfg.protocol = .auto then .atrT0
      else .atrTb1
    let dProt := protocolField
    let guard0 : ℕ := if dProt = .t0 then 12 else 0
    -- T=1 unsupported at configuration time (uiemvanalyzer.cpp:264-270)
    let pre : AnalyzerState × List EmvItem :=
      if dProt = .t1 then
        (.done, [⟨.errorProtocol, .intVal 0, "", 0, -1, .iccToTtl⟩])
      else (state0, [])
    let s0 := initialLoopState pre.1 pre.2 cfg.logicConvention dProt guard0 ioD
    -- sample-rate check (uiemvanalyzer.cpp:288-293); the item takes
    -- startBitIdx, still -1 at this point
    let s1 :=
      if (rate : ℤ) < minSampleRate then
        { s0 with state := .done,
                  items := s0.items ++ [⟨.errorRate, .intVal 0, "", s0.startBitIdx, -1, s0.dataDirection⟩] }
      else s0
    let sF := analyzeLoop ioD rstD rate etu (ioD.length + rstD.length) s1
    (sF.items, protocolField)

/-- UiEmvAnalyzer::signalName. -/
def signalName : List Char := "EMV Analyzer".data

/-- The integer value of a Types::EmvLogicConvention enumerator
(declaration order Auto, InverseConvention, DirectConvention). -/
def conventionCode : EmvLogicConvention → ℕ
  | .auto => 0
  | .inverse => 1
  | .direct => 2

/-- The enumerator of a logic-convention integer code (the C cast). -/
def conventionOfCode (i : ℤ) : EmvLogicConvention :=
  if i = 0 then .auto else if i = 1 then .inverse else .direct

/-- The integer value of a Types::DataFormat enumerator (declaration
order Hex, Decimal, Ascii). -/
def formatCode : DataFormat → ℕ
  | .hex => 0
  | .dec => 1
  | .ascii => 2

/-- The enumerator of a data-format integer code (the C cast). -/
def formatOfCode (i : ℤ) : DataFormat :=
  if i = 0 then .hex else if i = 1 then .dec else .ascii

/-- Decimal rendering of a nonnegative integer, as QString::arg does. -/
def natChars (n : ℕ) : List Char := Nat.toDigits 10 n

/-- Decimal rendering of an integer, as QString::arg does. -/
def intChars (z : ℤ) : List Char :=
  if z < 0 then Char.ofNat 45 :: natChars z.natAbs else natChars z.toNat

/-- QString::split with a single-character separator, keeping empty
parts (the Qt4 default). -/
def splitChar (sep : Char) : List Char → List (List Char)
  | [] => [[]]
  | c :: rest =>
    if c = sep then [] :: splitChar sep rest
    else
      match splitChar sep rest with
      | [] => [[c]]
      | g :: gs => (c :: g) :: gs

/-- Decimal digit accumulation for qtToInt. -/
def decDigitsAux : List Char → ℕ → Option ℕ
  | [], acc => some acc
  | c :: rest, acc =>
    if c.isDigit then decDigitsAux rest (acc * 10 + (c.toNat - 48)) else none

/-- QString::toInt: an optional minus sign followed by decimal digits;
anything else sets ok to false (returned here as none). -/
def qtToInt (l : List Char) : Option ℤ :=
  match l with
  | [] => none
  | c :: rest =>
    if c = Char.ofNat 45 then
      if rest = [] then none else (decDigitsAux rest 0).map (fun n => -(n : ℤ))
    else (decDigitsAux l 0).map (fun n => (n : ℤ))

/-- UiEmvAnalyzer::toSettingsString (uiemvanalyzer.cpp:775-789): the
signal name and the name, followed by the five numeric fields, each
field followed by a semicolon. -/
def toSettingsString (cfg : EmvConfig) : List Char :=
  signalName ++ [Char.ofNat 59] ++ cfg.name ++ [Char.ofNat 59] ++
  intChars cfg.ioSignalId ++ [Char.ofNat 59] ++
  intChars cfg.rstSignalId ++ [Char.ofNat 59] ++
  intChars cfg.clkFreq ++ [Char.ofNat 59] ++
  natChars (conventionCode cfg.logicConvention) ++ [Char.ofNat 59] ++
  natChars (formatCode cfg.format) ++ [Char.ofNat 59]

/-- UiEmvAnalyzer::fromSettingsString (uiemvanalyzer.cpp:796-854).
Parsing failure, or a failed validation, returns none (the C function
returns NULL).  The source splits on the semicolon, requires exactly six
tokens, and then reads token index 6 for the data format; QList::at of
index 6 in a six-element list is an out-of-bounds access that can never
return a value, modelled here by the (always failing) get? lookup. -/
def fromSettingsString (s : List Char) : Option EmvConfig :=
  let list := splitChar (Char.ofNat 59) s
  if list.length ≠ 6 then none
  else if list.getD 0 [] ≠ signalName then none
  else
    let name := list.getD 1 []
    match qtToInt (list.getD 2 []) with
    | none => none
    | some ioId =>
      match qtToInt (list.getD 3 []) with
      | none => none
      | some rstId =>
        match qtToInt (list.getD 4 []) with
        | none => none
        | some clk =>
          match qtToInt (list.getD 5 []) with
          | none => none
          | some lc =>
            if lc < 0 ∨ 3 ≤ lc then none
            else
              match list.get? 6 with
              | none => none
              | some ftok =>
                match qtToInt ftok with
                | none => none
                | some f =>
                  if f < 0 ∨ 3 ≤ f then none
                  else some { ioSignalId := ioId, rstSignalId := rstId,
                              clkFreq := clk,
                              logicConvention := conventionOfCode lc,
                              protocol := .auto,
                              format := formatOfCode f, name := name }


/-! ### General lemmas -/

/-- The decoding loop is a no-op once the machine is DONE. -/
theorem analyzeLoop_done (ioD rstD : List ℕ) (rate : ℕ) (etu : ℚ) (n : ℕ)
    (s : LoopState) (h : s.state = .done) :
    analyzeLoop ioD rstD rate etu n s = s := by
  cases n with
  | zero => rfl
  | succ m => simp [analyzeLoop, h]

/-- splitChar never returns an empty list of groups. -/
theorem splitChar_ne_nil (sep : Char) (l : List Char) : splitChar sep l ≠ [] := by
  induction l with
  | nil => simp [splitChar]
  | cons c rest ih =>
    simp only [splitChar]
    split
    · simp
    · cases h : splitChar sep rest with
      | nil => exact absurd h ih
      | cons g gs => simp

/-- The number of groups returned by splitChar is the number of
separators plus one. -/
theorem splitChar_length (sep : Char) (l : List Char) :
    (splitChar sep l).length = l.count sep + 1 := by
  induction l with
  | nil => simp [splitChar]
  | cons c rest ih =>
    simp only [splitChar]
    split
    · rename_i hc
      subst hc
      simp [ih, List.count_cons]
    · rename_i hc
      cases h : splitChar sep rest with
      | nil => exact absurd h (splitChar_ne_nil sep rest)
      | cons g gs =>
        have := ih
        rw [h] at this
        simp only [List.length_cons] at this ⊢
        rw [List.count_cons]
        simp [hc]
        omega

/-! ### C9: the settings string does not survive its own parser -/

/-- The serialized settings string contains at least seven semicolons. -/
theorem toSettingsString_count (cfg : EmvConfig) :
    7 ≤ (toSettingsString cfg).count (Char.ofNat 59) := by
  unfold toSettingsString
  simp [List.count_append, signalName]
  omega

/-- C9.  The claim asserts that the configuration fields round-trip
through the textual settings serialization.  They do not: for every
configuration, toSettingsString terminates each of its seven fields
with a semicolon, so splitting on the semicolon yields eight tokens,
while fromSettingsString rejects any input that does not split into
exactly six tokens (and would, moreover, read token index 6, which a
six-token list cannot have).  Parsing the produced string therefore
always returns none (NULL). -/
theorem claim_C9_code_behavior (cfg : EmvConfig) :
    fromSettingsString (toSettingsString cfg) = none := by
  have hlen : (splitChar (Char.ofNat 59) (toSettingsString cfg)).length ≠ 6 := by
    rw [splitChar_length]
    have := toSettingsString_count cfg
    omega
  unfold fromSettingsString
  rw [if_pos hlen]

/-! ### C10: analyze resets the protocol field under Auto convention -/

/-- C10.  When the configured logic convention is Auto, running analyze
overwrites the mProtocol member with Auto before decoding starts, so the
protocol() getter afterwards returns Auto whatever protocol had been set
with setProtocol.  The hypotheses are exactly the guards that let
analyze proceed to its configuration-resolution prelude. -/
theorem claim_C10 (cfg : EmvConfig) (ioD rstD : List ℕ) (rate : ℕ)
    (h1 : cfg.ioSignalId ≠ -1) (h2 : cfg.rstSignalId ≠ -1)
    (h3 : ioD.length ≠ 0) (h4 : rstD.length ≠ 0) (h5 : cfg.clkFreq ≠ -1)
    (h6 : cfg.logicConvention = .auto) :
    (analyze cfg ioD rstD rate).2 = .auto := by
  unfold analyze
  rw [if_neg (by simp [h1, h2]), if_neg (by simp [h3, h4]), if_neg h5]
  simp [h6]

/-- Witness for C10 at a concrete configuration whose protocol had been
set to T0 before the pass. -/
theorem claim_C10_witness :
    (analyze { ioSignalId := 0, rstSignalId := 1, clkFreq := 372,
               logicConvention := .auto, protocol := .t0 }
             [1] [1] 10).2 = .auto :=
  claim_C10 _ [1] [1] 10 (by decide) (by decide) (by decide) (by decide)
    (by decide) rfl

/-! ### C7: a too-low sample rate yields one rate error and no bytes -/

/-- C7.  If the effective sample rate is below the derived minimum
1 + 1/(ETU*0.2), the pass emits exactly one RateTooLow error item and
decodes no characters, whatever the content of the I/O line.  (When the
analyzer is configured for protocol T=1 the pass also contains the
unsupported-protocol item, but still exactly one rate item and no
character frames.) -/
theorem claim_C7 (cfg : EmvConfig) (ioD rstD : List ℕ) (rate : ℕ)
    (h1 : cfg.ioSignalId ≠ -1) (h2 : cfg.rstSignalId ≠ -1)
    (h3 : ioD.length ≠ 0) (h4 : rstD.length ≠ 0) (h5 : cfg.clkFreq ≠ -1)
    (hrate : (rate : ℤ) < cint (1 + 1 / ((372 / (cfg.clkFreq : ℚ)) * (1/5)))) :
    ((analyze cfg ioD rstD rate).1.countP
        (fun it => decide (it.type = ItemType.errorRate)) = 1) ∧
    ((analyze cfg ioD rstD rate).1.countP
        (fun it => decide (it.type = ItemType.characterFrame)) = 0) := by
  unfold analyze
  rw [if_neg (by simp [h1, h2]), if_neg (by simp [h3, h4]), if_neg h5]
  simp only []
  rw [if_pos hrate]
  rw [analyzeLoop_done _ _ _ _ _ _ (by simp)]
  split_ifs <;> simp [initialLoopState, List.countP_append, List.countP_cons]

/-- Witness for C7: clock 372 Hz gives ETU 1 s and minimum rate 6; a
rate of 1 sample/s is below it. -/
theorem claim_C7_witness :
    ((analyze { ioSignalId := 0, rstSignalId := 1, clkFreq := 372 }
        [0, 0, 1] [1, 1, 1] 1).1.countP
        (fun it => decide (it.type = ItemType.errorRate)) = 1) ∧
    ((analyze { ioSignalId := 0, rstSignalId := 1, clkFreq := 372 }
        [0, 0, 1] [1, 1, 1] 1).1.countP
        (fun it => decide (it.type = ItemType.characterFrame)) = 0) :=
  claim_C7 _ [0, 0, 1] [1, 1, 1] 1 (by decide) (by decide) (by decide)
    (by decide) (by decide) (by norm_num [cint])

/-! ### C1: the state after consuming P3 with no special case -/

/-- Byte-level start state of a pass whose convention is Auto, as the
analyze prelude builds it. -/
def atrStart : LoopState := initialLoopState .atrTs [] .auto .auto 0 [0]

/-- Counterexample to C1.  Decoding the ATR 3B 60 00 00 followed by the
command header 00 A4 04 00 and the P3 byte 02 (a command with no
special case set and P3 = 2 > 0) leaves the machine in RESPONSE_INS
with direction ICC-to-terminal: the claimed next state COMMAND_DATA and
the claimed terminal-to-ICC direction are both wrong. -/
theorem claim_C1_counterexample :
    (consumeAll 1 10 atrStart
        [0x3b, 0x60, 0x00, 0x00, 0x00, 0xa4, 0x04, 0x00, 0x02]).state = .respIns ∧
    (consumeAll 1 10 atrStart
        [0x3b, 0x60, 0x00, 0x00, 0x00, 0xa4, 0x04, 0x00, 0x02]).state ≠ .cmdData ∧
    (consumeAll 1 10 atrStart
        [0x3b, 0x60, 0x00, 0x00, 0x00, 0xa4, 0x04, 0x00, 0x02]).dataDirection = .iccToTtl ∧
    (consumeAll 1 10 atrStart
        [0x3b, 0x60, 0x00, 0x00, 0x00, 0xa4, 0x04, 0x00, 0x02]).dataDirection ≠ .ttlToIcc := by
  simp [atrStart, consumeAll, consume, processByte, dispatchByte, initialLoopState,
    show (0x60 : ℕ) &&& 0xf = 0 by decide]

/-- C1 as amended.  When the P3 byte is consumed in COMMAND_P3 with the
current command in no special case (Case neither 2 nor 4) and P3 > 0,
the machine stores P3, allocates a command-data buffer of P3 bytes and
sets the remaining-data counter to P3; the next state is RESPONSE_INS,
awaiting the INS procedure byte, and the data direction switches to
ICC-to-terminal (COMMAND_DATA with direction terminal-to-ICC is entered
only after the procedure byte). -/
theorem claim_C1_amended (etu : ℚ) (rate : ℕ) (s : LoopState) (b : ℕ)
    (hst : s.state = .cmdP3)
    (h2 : s.currCommand.Case ≠ 2) (h4 : s.currCommand.Case ≠ 4)
    (hb : 0 < b) :
    (consume etu rate s b).currCommand.P3 = b ∧
    (consume etu rate s b).currCommand.Data.length = b ∧
    (consume etu rate s b).remData = b ∧
    (consume etu rate s b).state = .respIns ∧
    (consume etu rate s b).dataDirection = .iccToTtl := by
  simp [consume, processByte, dispatchByte, hst, h2, h4, hb, Nat.pos_iff_ne_zero.mp hb]

/-- Witness for the amended C1 at a concrete reachable state. -/
theorem claim_C1_witness :
    (consume 1 10 (consumeAll 1 10 atrStart
        [0x3b, 0x60, 0x00, 0x00, 0x00, 0xa4, 0x04, 0x00]) 0x02).state = .respIns ∧
    (consume 1 10 (consumeAll 1 10 atrStart
        [0x3b, 0x60, 0x00, 0x00, 0x00, 0xa4, 0x04, 0x00]) 0x02).dataDirection = .iccToTtl := by
  have h := claim_C1_amended 1 10
    (consumeAll 1 10 atrStart [0x3b, 0x60, 0x00, 0x00, 0x00, 0xa4, 0x04, 0x00]) 0x02
    (by simp [atrStart, consumeAll, consume, processByte, dispatchByte, initialLoopState,
          show (0x60 : ℕ) &&& 0xf = 0 by decide])
    (by simp [atrStart, consumeAll, consume, processByte, dispatchByte, initialLoopState,
          show (0x60 : ℕ) &&& 0xf = 0 by decide])
    (by simp [atrStart, consumeAll, consume, processByte, dispatchByte, initialLoopState,
          show (0x60 : ℕ) &&& 0xf = 0 by decide])
    (by decide)
  exact ⟨h.2.2.2.1, h.2.2.2.2⟩

/-! ### C2: response bytes are not stored at consecutive offsets -/

/-- Extract the ResponseData payload of a command-message item. -/
def cmdResponseData (it : EmvItem) : Option (List (Option ℕ)) :=
  match it.type, it.value with
  | .commandMessage, .cmdVal m => some m.ResponseData
  | _, _ => none

/-- C2, behaviour of the code at the failing input.  A complete case-4
exchange (ATR 3B 60 00 00; command 00 A4 04 00 00; status 61 01 so
Licc = 1; GET-RESPONSE re-entry 00 C0 00 00 01; procedure byte C0; one
response byte AB; status 90 00): after the single response byte the
machine does proceed to RESPONSE_STATUS, but the byte AB is written at
offset Licc - currCommandRemainingData = 1 - 0 = 1, outside the
one-byte response buffer, instead of at offset 0; the buffer keeps its
uninitialized cell and the emitted CommandMessage carries ResponseData
[none], not the received byte. -/
theorem claim_C2_code_behavior :
    (consumeAll 1 10 atrStart
        [0x3b, 0x60, 0x00, 0x00, 0x00, 0xa4, 0x04, 0x00, 0x00, 0x61, 0x01,
         0x00, 0xc0, 0x00, 0x00, 0x01, 0xc0, 0xab]).state = .respStatus ∧
    (consumeAll 1 10 atrStart
        [0x3b, 0x60, 0x00, 0x00, 0x00, 0xa4, 0x04, 0x00, 0x00, 0x61, 0x01,
         0x00, 0xc0, 0x00, 0x00, 0x01, 0xc0, 0xab]).currCommand.Licc = 1 ∧
    (consumeAll 1 10 atrStart
        [0x3b, 0x60, 0x00, 0x00, 0x00, 0xa4, 0x04, 0x00, 0x00, 0x61, 0x01,
         0x00, 0xc0, 0x00, 0x00, 0x01, 0xc0, 0xab]).currCommand.ResponseData = [none] ∧
    ((consumeAll 1 10 atrStart
        [0x3b, 0x60, 0x00, 0x00, 0x00, 0xa4, 0x04, 0x00, 0x00, 0x61, 0x01,
         0x00, 0xc0, 0x00, 0x00, 0x01, 0xc0, 0xab, 0x90, 0x00]).items.filterMap
        cmdResponseData) = [[none]] := by
  simp [atrStart, consumeAll, consume, processByte, dispatchByte, initialLoopState,
    cmdResponseData, bufWrite,
    show (0x60 : ℕ) &&& 0xf = 0 by decide]

/-! ### C3: an unexpected SW1 is not rejected on the first status byte -/

/-- Counterexample to C3.  After ATR 3B 60 00 00 and command
00 A4 04 00 00 the machine is in RESPONSE_STATUS; consuming the status
byte 6A (which is neither 0x90 nor 0x6C nor 0x61) emits no error item
and leaves the machine in RESPONSE_STATUS, not DONE: the byte is simply
stored into SW1. -/
theorem claim_C3_counterexample :
    (consumeAll 1 10 atrStart
        [0x3b, 0x60, 0x00, 0x00, 0x00, 0xa4, 0x04, 0x00, 0x00, 0x6a]).state
      = .respStatus ∧
    (consumeAll 1 10 atrStart
        [0x3b, 0x60, 0x00, 0x00, 0x00, 0xa4, 0x04, 0x00, 0x00, 0x6a]).state ≠ .done ∧
    (consumeAll 1 10 atrStart
        [0x3b, 0x60, 0x00, 0x00, 0x00, 0xa4, 0x04, 0x00, 0x00, 0x6a]).currCommand.Sw1
      = 0x6a ∧
    (consumeAll 1 10 atrStart
        [0x3b, 0x60, 0x00, 0x00, 0x00, 0xa4, 0x04, 0x00, 0x00, 0x6a]).items.countP
        (fun it => decide (it.type = ItemType.errorGeneric)) = 0 := by
  simp [atrStart, consumeAll, consume, processByte, dispatchByte, initialLoopState,
    show (0x60 : ℕ) &&& 0xf = 0 by decide]

/-- C3 as amended.  In RESPONSE_STATUS the first status byte is stored
into SW1 unconditionally and the second into SW2; only when both status
slots are already filled (neither holds the 0xFF sentinel, i.e. the
stored pair matched none of 90 00, 6C, 61) does a further status byte
produce the generic protocol-violation error carrying that byte, with
transition to DONE. -/
theorem claim_C3_amended (etu : ℚ) (rate : ℕ) (s : LoopState) (b : ℕ)
    (hst : s.state = .respStatus)
    (h1 : s.currCommand.Sw1 ≠ 0xff) (h2 : s.currCommand.Sw2 ≠ 0xff) :
    (consume etu rate s b).state = .done ∧
    (consume etu rate s b).items =
      s.items ++ [⟨.errorGeneric, .intVal b, "", s.startBitIdx, -1, s.dataDirection⟩] := by
  simp [consume, processByte, dispatchByte, emitErr, hst, h1, h2]

/-- Witness for the amended C3 at a concrete reachable state: the trace
of the counterexample extended by a second status byte 0x82, making
SW1 = 0x6A, SW2 = 0x82, followed by a third status byte 0x90. -/
theorem claim_C3_witness :
    (consume 1 10 (consumeAll 1 10 atrStart
        [0x3b, 0x60, 0x00, 0x00, 0x00, 0xa4, 0x04, 0x00, 0x00, 0x6a, 0x82]) 0x90).state
      = .done :=
  (claim_C3_amended 1 10
    (consumeAll 1 10 atrStart
      [0x3b, 0x60, 0x00, 0x00, 0x00, 0xa4, 0x04, 0x00, 0x00, 0x6a, 0x82]) 0x90
    (by simp [atrStart, consumeAll, consume, processByte, dispatchByte, initialLoopState,
          show (0x60 : ℕ) &&& 0xf = 0 by decide])
    (by simp [atrStart, consumeAll, consume, processByte, dispatchByte, initialLoopState,
          show (0x60 : ℕ) &&& 0xf = 0 by decide])
    (by simp [atrStart, consumeAll, consume, processByte, dispatchByte, initialLoopState,
          show (0x60 : ℕ) &&& 0xf = 0 by decide])).1

/-! ### C5: the historical-byte countdown -/

/-- One byte consumed in the Historical Bytes state decrements the
counter (quint8 arithmetic, here below the wrap) and moves to
COMMAND_CLA with direction terminal-to-ICC exactly when it reaches
zero. -/
theorem consume_atrHist (etu : ℚ) (rate : ℕ) (t : LoopState) (a : ℕ)
    (hst : t.state = .atrHist) (h0 : 0 < t.numHistoricalBytes)
    (h1 : t.numHistoricalBytes ≤ 256) :
    (consume etu rate t a).numHistoricalBytes = t.numHistoricalBytes - 1 ∧
    (consume etu rate t a).state =
      (if t.numHistoricalBytes - 1 = 0 then .cmdCla else .atrHist) ∧
    (consume etu rate t a).dataDirection =
      (if t.numHistoricalBytes - 1 = 0 then .ttlToIcc else t.dataDirection) := by
  have hmod : (t.numHistoricalBytes + 255) % 256 = t.numHistoricalBytes - 1 := by omega
  by_cases hz : t.numHistoricalBytes - 1 = 0 <;>
    simp [consume, processByte, dispatchByte, hst, hmod, hz]

/-- Running the Historical Bytes state over a list whose length equals
the counter: every proper prefix leaves the machine in the state with
the correspondingly decremented counter, and the full list ends in
COMMAND_CLA with direction terminal-to-ICC. -/
theorem hist_countdown (etu : ℚ) (rate : ℕ) :
    ∀ (hs : List ℕ) (t : LoopState),
      t.state = .atrHist → t.numHistoricalBytes = hs.length →
      hs.length ≤ 255 → 0 < hs.length →
      ((consumeAll etu rate t hs).state = .cmdCla ∧
       (consumeAll etu rate t hs).dataDirection = .ttlToIcc) ∧
      (∀ k, k < hs.length →
        (consumeAll etu rate t (hs.take k)).state = .atrHist ∧
        (consumeAll etu rate t (hs.take k)).numHistoricalBytes = hs.length - k) := by
  intro hs
  induction hs with
  | nil => intro t _ _ _ h4; simp at h4
  | cons a rest ih =>
    intro t h1 h2 h3 _
    simp only [List.length_cons] at h2 h3 ⊢
    have hstep := consume_atrHist etu rate t a h1 (by omega) (by omega)
    have hcount : (consume etu rate t a).numHistoricalBytes = rest.length := by omega
    have hfold : ∀ l, consumeAll etu rate t (a :: l) =
        consumeAll etu rate (consume etu rate t a) l := by
      intro l; simp [consumeAll]
    by_cases hrest : rest.length = 0
    · have hz : t.numHistoricalBytes - 1 = 0 := by omega
      simp only [hz] at hstep
      have hrnil : rest = [] := List.length_eq_zero.mp hrest
      subst hrnil
      refine ⟨⟨?_, ?_⟩, ?_⟩
      · rw [hfold]; simpa [consumeAll] using hstep.2.1
      · rw [hfold]; simpa [consumeAll] using hstep.2.2
      · intro k hk
        have hk0 : k = 0 := by omega
        subst hk0
        exact ⟨by simpa [consumeAll] using h1, by simpa [consumeAll] using by omega⟩
    · have hz : ¬ t.numHistoricalBytes - 1 = 0 := by omega
      simp only [hz, if_neg, ite_false] at hstep
      have ihx := ih (consume etu rate t a) hstep.2.1 hcount (by omega) (by omega)
      refine ⟨by rw [hfold]; exact ihx.1, ?_⟩
      intro k hk
      cases k with
      | zero =>
        exact ⟨by simpa [consumeAll] using h1, by simpa [consumeAll] using by omega⟩
      | succ j =>
        have hj : j < rest.length := by omega
        have hx := ihx.2 j hj
        rw [List.take_succ_cons, hfold]
        refine ⟨hx.1, ?_⟩
        rw [hx.2]
        omega

/-- C5.  A T0 byte with upper nibble 0x6 and lower nibble N sets the
historical-byte count to N; after TB1 (0x00) and TC1, exactly N further
bytes are consumed in the Historical Bytes state, counting down to
zero, before the machine enters COMMAND_CLA with direction
terminal-to-ICC. -/
theorem claim_C5 (etu : ℚ) (rate : ℕ) (s : LoopState) (b c : ℕ) (hs : List ℕ)
    (hst : s.state = .atrT0) (hb : b >>> 4 = 0x6) (hlen : hs.length = b &&& 0xf) :
    (consume etu rate s b).numHistoricalBytes = b &&& 0xf ∧
    (∀ k, k < hs.length →
      (consumeAll etu rate s ([b, 0x00, c] ++ hs.take k)).state = .atrHist ∧
      (consumeAll etu rate s ([b, 0x00, c] ++ hs.take k)).numHistoricalBytes
        = hs.length - k) ∧
    (consumeAll etu rate s ([b, 0x00, c] ++ hs)).state = .cmdCla ∧
    (consumeAll etu rate s ([b, 0x00, c] ++ hs)).dataDirection = .ttlToIcc := by
  have hand : b &&& 0xf ≤ 15 := Nat.and_le_right
  have h1 : (consume etu rate s b).numHistoricalBytes = b &&& 0xf := by
    simp [consume, processByte, dispatchByte, hst, hb]
  have hpre : (consumeAll etu rate s [b, 0x00, c]).state
        = (if 0 < b &&& 0xf then AnalyzerState.atrHist else .cmdCla) ∧
      (consumeAll etu rate s [b, 0x00, c]).numHistoricalBytes = b &&& 0xf ∧
      (0 < b &&& 0xf → True) ∧
      (¬ 0 < b &&& 0xf →
        (consumeAll etu rate s [b, 0x00, c]).dataDirection = .ttlToIcc) := by
    by_cases hN : 0 < b &&& 0xf <;>
      simp [consumeAll, consume, processByte, dispatchByte, hst, hb, hN]
  have hsplit : ∀ l : List ℕ, consumeAll etu rate s ([b, 0x00, c] ++ l) =
      consumeAll etu rate (consumeAll etu rate s [b, 0x00, c]) l := by
    intro l; simp [consumeAll]
  by_cases hN : 0 < b &&& 0xf
  · have hcd := hist_countdown etu rate hs (consumeAll etu rate s [b, 0x00, c])
      (by rw [hpre.1]; simp [hN]) (by omega) (by omega) (by omega)
    refine ⟨h1, ?_, ?_, ?_⟩
    · intro k hk
      rw [hsplit]
      exact hcd.2 k hk
    · rw [hsplit]; exact hcd.1.1
    · rw [hsplit]; exact hcd.1.2
  · have hnil : hs = [] := by
      have : hs.length = 0 := by omega
      exact List.length_eq_zero.mp this
    subst hnil
    refine ⟨h1, by simp, ?_, ?_⟩
    · rw [List.append_nil, hpre.1]; simp [hN]
    · rw [List.append_nil]; exact hpre.2.2.2 hN

/-- Witness for C5: T0 byte 0x62 announces two historical bytes. -/
theorem claim_C5_witness :
    (consumeAll 1 10 (consume 1 10 atrStart 0x3b)
        ([0x62, 0x00, 0x00] ++ [0x11, 0x22])).state = .cmdCla ∧
    (consumeAll 1 10 (consume 1 10 atrStart 0x3b)
        ([0x62, 0x00, 0x00] ++ [0x11, 0x22])).dataDirection = .ttlToIcc :=
  have h := claim_C5 1 10 (consume 1 10 atrStart 0x3b) 0x62 0x00 [0x11, 0x22]
    (by simp [atrStart, consume, processByte, dispatchByte, initialLoopState])
    (by decide) (by decide)
  ⟨h.2.2.1, h.2.2.2⟩

/-! ### Characterization of the byte dispatch, used by the loop invariants -/

/-- The dispatch either emits nothing (no error) or emits exactly one
error item at the current start bit with stop index -1 and the snapshot
direction. -/
theorem dispatchByte_items (dd : DataDirection) (s : LoopState) :
    ((dispatchByte dd s).2.1 = false ∧ (dispatchByte dd s).1.items = s.items) ∨
    ((dispatchByte dd s).2.1 = true ∧ ∃ t v,
      (dispatchByte dd s).1.items
          = s.items ++ [⟨t, .intVal v, "", s.startBitIdx, -1, dd⟩] ∧
      t ≠ ItemType.errorParity ∧ t ≠ ItemType.characterFrame ∧
      t ≠ ItemType.commandMessage) := by
  cases hst : s.state <;>
    simp only [dispatchByte, hst, emitErr] <;>
    (try split_ifs) <;>
    first
      | exact Or.inl ⟨rfl, rfl⟩
      | exact Or.inr ⟨rfl, _, _, rfl, by simp, by simp, by simp⟩
      | exact Or.inl (by simp)

/-- The dispatch never touches the position, the start-bit registers,
the arming flag or the byte under assembly (except the TS
reinterpretation of the byte value), and it moves the command start
register only to the current start bit. -/
theorem dispatchByte_regs (dd : DataDirection) (s : LoopState) :
    (dispatchByte dd s).1.pos = s.pos ∧
    (dispatchByte dd s).1.startBitIdx = s.startBitIdx ∧
    (dispatchByte dd s).1.lastStartBitIdx = s.lastStartBitIdx ∧
    (dispatchByte dd s).1.expectDirectionSwitch = s.expectDirectionSwitch ∧
    ((dispatchByte dd s).1.currCommandStartBitIdx = s.currCommandStartBitIdx ∨
     (dispatchByte dd s).1.currCommandStartBitIdx = s.startBitIdx) := by
  cases hst : s.state <;>
    simp only [dispatchByte, hst, emitErr] <;>
    (try split_ifs) <;>
    simp

/-- After an error the dispatch is either DONE or has kept the data
direction (the COMMAND_CLA/INS/P1/P2 mismatch errors overwrite the DONE
state but do not change the direction). -/
theorem dispatchByte_error_dir (dd : DataDirection) (s : LoopState) :
    (dispatchByte dd s).2.1 = true →
    ((dispatchByte dd s).1.state = .done ∨
     (dispatchByte dd s).1.dataDirection = s.dataDirection) := by
  cases hst : s.state <;>
    simp only [dispatchByte, hst, emitErr] <;>
    (try split_ifs) <;>
    simp

/-- A completed command implies no error was flagged in the same byte. -/
theorem dispatchByte_cmdDone (dd : DataDirection) (s : LoopState) :
    (dispatchByte dd s).2.2 = true → (dispatchByte dd s).2.1 = false := by
  cases hst : s.state <;>
    simp only [dispatchByte, hst, emitErr] <;>
    (try split_ifs) <;>
    simp

/-- Shape of one full byte processing: at least one item is appended,
none of the appended items is a parity error, every appended item
starts at the current start bit or at the recorded command start, and
stops either at -1 or half an ETU past the current position; the
position is unchanged and the start registers move only in the ways the
source allows. -/
theorem processByte_spec (etu : ℚ) (rate : ℕ) (s : LoopState) :
    ∃ l, (processByte etu rate s).items = s.items ++ l ∧ l ≠ [] ∧
      (∀ it ∈ l, it.type ≠ ItemType.errorParity ∧
        (it.startIdx = s.startBitIdx ∨ it.startIdx = s.currCommandStartBitIdx) ∧
        (it.stopIdx = -1 ∨ it.stopIdx = cint ((s.pos : ℚ) + etu * (rate : ℚ)))) ∧
    (processByte etu rate s).pos = s.pos ∧
    ((processByte etu rate s).startBitIdx = s.startBitIdx ∨
     (processByte etu rate s).startBitIdx = -1) ∧
    ((processByte etu rate s).currCommandStartBitIdx = s.currCommandStartBitIdx ∨
     (processByte etu rate s).currCommandStartBitIdx = s.startBitIdx) := by
  have hitems := dispatchByte_items s.dataDirection s
  have hregs := dispatchByte_regs s.dataDirection s
  have hcd := dispatchByte_cmdDone s.dataDirection s
  rcases hd : dispatchByte s.dataDirection s with ⟨s1, err, cd⟩
  rw [hd] at hitems hregs hcd
  simp only at hitems hregs hcd
  simp only [processByte]
  rw [hd]
  simp only
  cases err with
  | true =>
    have hcd0 : cd = false := by
      cases cd
      · rfl
      · exact absurd (hcd rfl) (by simp)
    subst hcd0
    rcases hitems with ⟨hfalse, _⟩ | ⟨_, t, v, hi, ht1, ht2, ht3⟩
    · exact absurd hfalse (by simp)
    · refine ⟨[⟨t, .intVal v, "", s.startBitIdx, -1, s.dataDirection⟩], by simp [hi], by simp,
        ?_, by simp [hregs.1], by simp [hregs.2.1], ?_⟩
      · intro it hit
        simp at hit
        subst hit
        exact ⟨ht1, Or.inl rfl, Or.inl rfl⟩
      · rcases hregs.2.2.2.2 with h | h
        · exact Or.inl (by simp [h])
        · exact Or.inr (by simp [h])
  | false =>
    cases cd with
    | false =>
      rcases hitems with ⟨_, hi⟩ | ⟨hfalse, _⟩
      · refine ⟨[⟨.characterFrame, .intVal s1.currByte, stateLabel s.state,
            s1.startBitIdx, cint ((s.pos : ℚ) + etu * (rate : ℚ)), s.dataDirection⟩],
          by simp [hi], by simp, ?_, by simp [hregs.1], by simp, ?_⟩
        · intro it hit
          simp at hit
          subst hit
          exact ⟨by simp, Or.inl (by simp [hregs.2.1]), Or.inr rfl⟩
        · rcases hregs.2.2.2.2 with h | h
          · exact Or.inl (by simp [h])
          · exact Or.inr (by simp [h])
      · exact absurd hfalse (by simp)
    | true =>
      rcases hitems with ⟨_, hi⟩ | ⟨hfalse, _⟩
      · refine ⟨_, by rw [← List.append_assoc, ← hi]; rfl, by simp, ?_,
          by simp [hregs.1], by simp, ?_⟩
        · intro it hit
          simp at hit
          rcases hit with hit | hit <;> subst hit
          · exact ⟨by simp, Or.symm (by simpa using hregs.2.2.2.2), Or.inr rfl⟩
          · exact ⟨by simp, Or.inl (by simp [hregs.2.1]), Or.inr rfl⟩
        · rcases hregs.2.2.2.2 with h | h
          · exact Or.inl (by simp [h])
          · exact Or.inr (by simp [h])
      · exact absurd hfalse (by simp)

/-- Frame-level shape of one byte processing, as needed by the
direction-guard analysis: an error appends exactly one non-frame item
and leaves the start registers alone (and either stops the machine or
keeps the direction); a success appends exactly one character frame
(possibly preceded by a command message), tagged with the direction and
start bit of the byte, and moves the last-start register to that start
bit. -/
theorem processByte_frames (etu : ℚ) (rate : ℕ) (s : LoopState) :
    (∃ e : EmvItem, (processByte etu rate s).items = s.items ++ [e] ∧
       e.type ≠ ItemType.characterFrame ∧
       (processByte etu rate s).lastStartBitIdx = s.lastStartBitIdx ∧
       (processByte etu rate s).startBitIdx = s.startBitIdx ∧
       ((processByte etu rate s).state = .done ∨
        (processByte etu rate s).dataDirection = s.dataDirection)) ∨
    (∃ l f, (processByte etu rate s).items = s.items ++ l ++ [f] ∧
       (∀ it ∈ l, it.type ≠ ItemType.characterFrame) ∧
       f.type = ItemType.characterFrame ∧ f.direction = s.dataDirection ∧
       f.startIdx = s.startBitIdx ∧
       (processByte etu rate s).lastStartBitIdx = s.startBitIdx ∧
       (processByte etu rate s).startBitIdx = -1) := by
  have hitems := dispatchByte_items s.dataDirection s
  have hregs := dispatchByte_regs s.dataDirection s
  have hcd := dispatchByte_cmdDone s.dataDirection s
  have herrdir := dispatchByte_error_dir s.dataDirection s
  rcases hd : dispatchByte s.dataDirection s with ⟨s1, err, cd⟩
  rw [hd] at hitems hregs hcd herrdir
  simp only at hitems hregs hcd herrdir
  simp only [processByte]
  rw [hd]
  simp only
  cases err with
  | true =>
    have hcd0 : cd = false := by
      cases cd
      · rfl
      · exact absurd (hcd rfl) (by simp)
    subst hcd0
    rcases hitems with ⟨hfalse, _⟩ | ⟨_, t, v, hi, _, ht2, _⟩
    · exact absurd hfalse (by simp)
    · refine Or.inl ⟨⟨t, .intVal v, "", s.startBitIdx, -1, s.dataDirection⟩,
        by simp [hi], ht2, by simp [hregs.2.2.1], by simp [hregs.2.1], ?_⟩
      simpa using herrdir rfl
  | false =>
    cases cd with
    | false =>
      rcases hitems with ⟨_, hi⟩ | ⟨hfalse, _⟩
      · exact Or.inr ⟨[], ⟨.characterFrame, .intVal s1.currByte, stateLabel s.state,
            s1.startBitIdx, cint ((s.pos : ℚ) + etu * (rate : ℚ)), s.dataDirection⟩,
          by simp [hi], by simp, by simp, by simp, by simp [hregs.2.1],
          by simp [hregs.2.1], by simp⟩
      · exact absurd hfalse (by simp)
    | true =>
      rcases hitems with ⟨_, hi⟩ | ⟨hfalse, _⟩
      · refine Or.inr ⟨[⟨.commandMessage,
            .cmdVal { s1.currCommand with Label :=
              if s1.currCommand.Cla = 0 ∧ s1.currCommand.Ins = 0xa4 then "SELECT"
              else if s1.currCommand.Cla = 0 ∧ s1.currCommand.Ins = 0xb2 then "READ RECORD"
              else "UNKNOWN" },
            "Command Message", s1.currCommandStartBitIdx,
            cint ((s.pos : ℚ) + etu * (rate : ℚ)), s.dataDirection⟩],
          ⟨.characterFrame, .intVal s1.currByte, stateLabel s.state,
            s1.startBitIdx, cint ((s.pos : ℚ) + etu * (rate : ℚ)), s.dataDirection⟩,
          by simp [hi], by simp, by simp, by simp,
          by simp [hregs.2.1], by simp [hregs.2.1], by simp⟩
      · exact absurd hfalse (by simp)

/-! ### C6: parity acceptance and the terminal position of parity errors -/

/-- No item of the list is a parity error. -/
def NoParity (l : List EmvItem) : Prop := ∀ it ∈ l, it.type ≠ ItemType.errorParity

/-- Invariant: while the machine runs, no parity error has been
emitted, and a parity error can only ever sit at the very end of the
item list. -/
def Inv6 (s : LoopState) : Prop :=
  (s.state ≠ .done → NoParity s.items) ∧ NoParity s.items.dropLast

/-- A state whose items contain no parity error satisfies the parity
invariant. -/
theorem Inv6_of_noParity (s : LoopState) (h : NoParity s.items) : Inv6 s :=
  ⟨fun _ => h, fun it hit => h it ((List.dropLast_sublist _).subset hit)⟩

/-- One sample preserves the parity invariant. -/
theorem sampleBody_inv6 (etu : ℚ) (rate : ℕ) (ioV : ℕ) (s : LoopState)
    (hInv : Inv6 s) (hs : s.state ≠ .done) :
    Inv6 (sampleBody etu rate ioV s) := by
  obtain ⟨h1, h2⟩ := hInv
  have hNP := h1 hs
  have hPB : Inv6 (processByte etu rate s) := by
    obtain ⟨l, hl, hne, hprop, -⟩ := processByte_spec etu rate s
    constructor
    · intro _ it hit
      rw [hl] at hit
      rcases List.mem_append.mp hit with h | h
      · exact hNP it h
      · exact (hprop it h).1
    · intro it hit
      rw [hl, List.dropLast_append_of_ne_nil _ hne] at hit
      rcases List.mem_append.mp hit with h | h
      · exact hNP it h
      · exact (hprop it ((List.dropLast_sublist l).subset h)).1
  simp only [sampleBody]
  split_ifs <;>
    first
      | exact hPB
      | exact ⟨fun _ => hNP, h2⟩
      | (refine ⟨fun hd => (hd rfl).elim, ?_⟩
         show NoParity (s.items ++ [_]).dropLast
         rw [List.dropLast_concat]
         exact hNP)

/-- One loop iteration preserves the parity invariant. -/
theorem analyzeStep_inv6 (ioD rstD : List ℕ) (rate : ℕ) (etu : ℚ) (s : LoopState)
    (hInv : Inv6 s) (hs : s.state ≠ .done) :
    Inv6 (analyzeStep ioD rstD rate etu s) := by
  simp only [analyzeStep]
  split_ifs with c1 c2 c2
  · exact sampleBody_inv6 etu rate _ _ hInv hs
  · exact sampleBody_inv6 etu rate _ _ hInv hs
  · exact hInv
  · exact hInv

/-- The whole loop preserves the parity invariant. -/
theorem analyzeLoop_inv6 (ioD rstD : List ℕ) (rate : ℕ) (etu : ℚ) :
    ∀ (n : ℕ) (s : LoopState), Inv6 s →
      Inv6 (analyzeLoop ioD rstD rate etu n s) := by
  intro n
  induction n with
  | zero => intro s h; exact h
  | succ m ih =>
    intro s h
    rw [analyzeLoop]
    split_ifs with h1 h2
    · exact h
    · exact h
    · exact ih _ (analyzeStep_inv6 ioD rstD rate etu s h h1)

/-- The loop wrapper around the sample body does not touch the item
list or the machine state. -/
theorem analyzeStep_items_state (ioD rstD : List ℕ) (rate : ℕ) (etu : ℚ)
    (s : LoopState) (hrst : rstD.getD s.pos 0 = 1) :
    (analyzeStep ioD rstD rate etu s).items
      = (sampleBody etu rate (ioD.getD s.pos 0) { s with currIo := ioD.getD s.pos 0 }).items ∧
    (analyzeStep ioD rstD rate etu s).state
      = (sampleBody etu rate (ioD.getD s.pos 0) { s with currIo := ioD.getD s.pos 0 }).state := by
  simp only [analyzeStep]
  rw [if_pos hrst]
  split_ifs <;> exact ⟨rfl, rfl⟩

/-- At the sample of the parity bit (a character in progress, bit rank
9, in tolerance), the sample body either runs the byte dispatch (even
parity) or emits the parity error and stops (odd parity). -/
theorem sampleBody_parity (etu : ℚ) (rate : ℕ) (ioV : ℕ) (s : LoopState)
    (hsb : s.startBitIdx ≠ -1) (hbr : s.bitRank = 9)
    (htol : |(s.pos : ℤ) - cround (((s.startBitIdx : ℚ) * (1 / (rate : ℚ))
        + ((s.bitRank : ℚ) + 1/2) * etu) * (rate : ℚ))|
      ≤ cround (1/5 * etu * (rate : ℚ))) :
    sampleBody etu rate ioV s =
      if (ioV + popCount s.currByte) % 2 = 0 then processByte etu rate s
      else { s with state := .done,
                    items := s.items ++
                      [⟨.errorParity, .intVal 0, "", s.startBitIdx, -1, s.dataDirection⟩] } := by
  simp only [sampleBody]
  rw [if_neg hsb, if_pos htol, if_neg (by omega : ¬(1 ≤ s.bitRank ∧ s.bitRank ≤ 8)),
    if_pos hbr]

/-- C6.  First part: a 9-bit character at the parity sample is accepted
(the byte dispatch runs and appends its non-parity items) exactly when
the raw parity-bit sample plus the popcount of the assembled byte is
even; an odd total emits the BadParity item and stops the machine.
Second part: in any full decode, a parity error item can only be the
last item of the output: no further items follow it. -/
theorem claim_C6 :
    (∀ (ioD rstD : List ℕ) (rate : ℕ) (etu : ℚ) (s : LoopState),
      rstD.getD s.pos 0 = 1 →
      s.startBitIdx ≠ -1 →
      s.bitRank = 9 →
      |(s.pos : ℤ) - cround (((s.startBitIdx : ℚ) * (1 / (rate : ℚ))
          + ((s.bitRank : ℚ) + 1/2) * etu) * (rate : ℚ))|
        ≤ cround (1/5 * etu * (rate : ℚ)) →
      ((((ioD.getD s.pos 0 + popCount s.currByte) % 2 = 0) ↔
        (∃ l, (analyzeStep ioD rstD rate etu s).items = s.items ++ l ∧ l ≠ [] ∧
           ∀ it ∈ l, it.type ≠ ItemType.errorParity)) ∧
       (((ioD.getD s.pos 0 + popCount s.currByte) % 2 ≠ 0) →
        (analyzeStep ioD rstD rate etu s).items
            = s.items ++ [⟨.errorParity, .intVal 0, "", s.startBitIdx, -1, s.dataDirection⟩] ∧
        (analyzeStep ioD rstD rate etu s).state = .done))) ∧
    (∀ (cfg : EmvConfig) (ioD rstD : List ℕ) (rate : ℕ) (i : ℕ)
       (hi : i < (analyze cfg ioD rstD rate).1.length),
       ((analyze cfg ioD rstD rate).1.get ⟨i, hi⟩).type = ItemType.errorParity →
       i + 1 = (analyze cfg ioD rstD rate).1.length) := by
  constructor
  · intro ioD rstD rate etu s hrst hsb hbr htol
    obtain ⟨hit, hstt⟩ := analyzeStep_items_state ioD rstD rate etu s hrst
    have hSB := sampleBody_parity etu rate (ioD.getD s.pos 0)
      { s with currIo := ioD.getD s.pos 0 } hsb hbr htol
    constructor
    · constructor
      · intro heven
        obtain ⟨l, hl, hne, hprop, -⟩ :=
          processByte_spec etu rate { s with currIo := ioD.getD s.pos 0 }
        refine ⟨l, ?_, hne, fun it h => (hprop it h).1⟩
        rw [hit, hSB, if_pos heven]
        exact hl
      · rintro ⟨l, hl2, hne2, hpar⟩
        by_contra hodd
        have hx : (analyzeStep ioD rstD rate etu s).items = s.items ++
            [⟨.errorParity, .intVal 0, "", s.startBitIdx, -1, s.dataDirection⟩] := by
          rw [hit, hSB, if_neg hodd]
        rw [hx] at hl2
        have hleq : ([⟨.errorParity, .intVal 0, "", s.startBitIdx, -1,
            s.dataDirection⟩] : List EmvItem) = l := List.append_cancel_left hl2
        have := hpar _ (hleq ▸ List.mem_singleton_self _)
        exact this rfl
    · intro hodd
      exact ⟨by rw [hit, hSB, if_neg hodd], by rw [hstt, hSB, if_neg hodd]⟩
  · intro cfg ioD rstD rate i hi htype
    have hInv : NoParity (analyze cfg ioD rstD rate).1.dropLast := by
      unfold analyze
      split_ifs with g1 g2 g3
      · intro it hit; simp at hit
      · intro it hit; simp at hit
      · intro it hit; simp at hit
      all_goals
        refine (analyzeLoop_inv6 ioD rstD rate _ _ _ (Inv6_of_noParity _ ?_)).2
      all_goals
        intro it hit
      all_goals
        simp only [initialLoopState] at hit
      all_goals
        split_ifs at hit <;> simp at hit <;>
          first
            | (subst hit; simp)
            | (rcases hit with hit | hit <;> (subst hit; simp))
    by_contra hne
    have hlt : i < (analyze cfg ioD rstD rate).1.dropLast.length := by
      rw [List.length_dropLast]
      omega
    have hmem : (analyze cfg ioD rstD rate).1.get ⟨i, hi⟩
        ∈ (analyze cfg ioD rstD rate).1.dropLast := by
      have := List.getElem_dropLast (analyze cfg ioD rstD rate).1 i hlt
      rw [List.get_eq_getElem, ← this]
      exact List.getElem_mem _
    exact hInv _ hmem htype

/-- A concrete machine state at a parity-bit sample: character started
at sample 0, ETU 1 s, rate 10 samples/s, so the parity bit (rank 9) is
sampled at position 95; the assembled byte 0x57 has five set bits and
the raw parity sample reads 0. -/
def c6state : LoopState :=
  { state := .atrTs, items := [], determinedConvention := .auto,
    determinedProtocol := .auto, numHistoricalBytes := 0,
    extraTermToICCGuardTime := 0, iccToTermGuardTime := 0,
    dataDirection := .iccToTtl, pos := 95, lastStartBitIdx := -1,
    startBitIdx := 0, nextStartBitPos := 0, bitRank := 9,
    expectDirectionSwitch := false, currByte := 0x57, currCommand := {},
    currCommandStartBitIdx := -1, remData := 0, remRespData := 0, currIo := 1 }

/-- Witness for C6: with an odd set-bit total (0 raw parity sample plus
five set bits of 0x57) the step emits the BadParity item and stops. -/
theorem claim_C6_witness :
    (analyzeStep (List.replicate 96 0) (List.replicate 96 1) 10 1 c6state).items
        = c6state.items ++ [⟨.errorParity, .intVal 0, "", c6state.startBitIdx, -1,
            c6state.dataDirection⟩] ∧
    (analyzeStep (List.replicate 96 0) (List.replicate 96 1) 10 1 c6state).state = .done :=
  (claim_C6.1 (List.replicate 96 0) (List.replicate 96 1) 10 1 c6state
    (by decide) (by decide) (by decide)
    (by norm_num [c6state, cround])).2
    (by decide)

/-! ### C8: item start and stop indices -/

/-- The sample index x is a genuine start-bit position: in range, RESET
asserted and I/O low there. -/
def ValidStart (ioD rstD : List ℕ) (x : ℤ) : Prop :=
  ∃ k : ℕ, x = (k : ℤ) ∧ k < ioD.length ∧ k < rstD.length ∧
    rstD.getD k 0 = 1 ∧ ioD.getD k 0 = 0

/-- The start/stop-index contract of one output item: the start index
is -1 (the pre-transaction rate error), 0 (the pre-pass
unsupported-protocol item) or a genuine start-bit position, and the
stop index is -1 or lies strictly after the start index. -/
def ItemOk (ioD rstD : List ℕ) (it : EmvItem) : Prop :=
  (it.startIdx = -1 ∨ it.startIdx = 0 ∨ ValidStart ioD rstD it.startIdx) ∧
  (it.stopIdx = -1 ∨ it.startIdx < it.stopIdx)

/-- A start-bit register is either the -1 sentinel or a genuine
start-bit position not beyond the current position. -/
def RegOk (ioD rstD : List ℕ) (pos : ℕ) (x : ℤ) : Prop :=
  x = -1 ∨ (ValidStart ioD rstD x ∧ x ≤ (pos : ℤ))

/-- Index invariant of the decoding loop. -/
def Inv8 (ioD rstD : List ℕ) (s : LoopState) : Prop :=
  RegOk ioD rstD s.pos s.startBitIdx ∧
  RegOk ioD rstD s.pos s.currCommandStartBitIdx ∧
  ∀ it ∈ s.items, ItemOk ioD rstD it

theorem RegOk_succ (ioD rstD : List ℕ) (p : ℕ) (x : ℤ)
    (h : RegOk ioD rstD p x) : RegOk ioD rstD (p + 1) x := by
  rcases h with h | ⟨hv, hle⟩
  · exact Or.inl h
  · exact Or.inr ⟨hv, by push_cast; omega⟩

theorem regStart (ioD rstD : List ℕ) (p : ℕ) (x : ℤ)
    (h : RegOk ioD rstD p x) : x = -1 ∨ x = 0 ∨ ValidStart ioD rstD x := by
  rcases h with h | ⟨hv, -⟩
  · exact Or.inl h
  · exact Or.inr (Or.inr hv)

/-- The C conversion of pos + q to int is pos plus the floor of q, for
nonnegative q. -/
theorem cint_nat_add (p : ℕ) (q : ℚ) (hq : 0 ≤ q) :
    cint ((p : ℚ) + q) = (p : ℤ) + ⌊q⌋ := by
  unfold cint
  rw [if_pos (by positivity), show ((p : ℚ) + q) = (((p : ℤ) : ℚ) + q) by push_cast; ring,
    Int.floor_int_add]

/-- Byte processing preserves the index invariant. -/
theorem processByte_inv8 (etu : ℚ) (rate : ℕ) (ioD rstD : List ℕ) (s : LoopState)
    (hetu : 0 ≤ etu) (hfl : 1 ≤ ⌊etu * (rate : ℚ)⌋)
    (hInv : Inv8 ioD rstD s) : Inv8 ioD rstD (processByte etu rate s) := by
  obtain ⟨hsb, hccs, hitems⟩ := hInv
  obtain ⟨l, hl, -, hprop, hpos, hsb', hccs'⟩ := processByte_spec etu rate s
  have hstop : cint ((s.pos : ℚ) + etu * (rate : ℚ)) = (s.pos : ℤ) + ⌊etu * (rate : ℚ)⌋ :=
    cint_nat_add s.pos _ (by positivity)
  refine ⟨?_, ?_, ?_⟩
  · rw [show (processByte etu rate s).pos = s.pos from hpos]
    rcases hsb' with h | h <;> rw [h]
    · exact hsb
    · exact Or.inl rfl
  · rw [show (processByte etu rate s).pos = s.pos from hpos]
    rcases hccs' with h | h <;> rw [h]
    · exact hccs
    · exact hsb
  · intro it hit
    rw [hl] at hit
    rcases List.mem_append.mp hit with h | h
    · exact hitems it h
    · obtain ⟨-, hstart, hstop2⟩ := hprop it h
      have hreg : RegOk ioD rstD s.pos it.startIdx := by
        rcases hstart with h2 | h2 <;> rw [h2]
        · exact hsb
        · exact hccs
      refine ⟨regStart ioD rstD s.pos it.startIdx hreg, ?_⟩
      rcases hstop2 with h2 | h2
      · exact Or.inl h2
      · refine Or.inr ?_
        rw [h2, hstop]
        have hle : it.startIdx ≤ (s.pos : ℤ) := by
          rcases hreg with h3 | ⟨-, h3⟩
          · rw [h3]; omega
          · exact h3
        omega

/-- One sample preserves the index invariant, provided the sample
position is in range and the I/O value handed to the body is the sample
at that position with RESET asserted. -/
theorem sampleBody_inv8 (etu : ℚ) (rate : ℕ) (ioV : ℕ) (ioD rstD : List ℕ)
    (s : LoopState)
    (hetu : 0 ≤ etu) (hfl : 1 ≤ ⌊etu * (rate : ℚ)⌋)
    (hio : ioV = ioD.getD s.pos 0) (hrstV : rstD.getD s.pos 0 = 1)
    (hpio : s.pos < ioD.length) (hprs : s.pos < rstD.length)
    (hInv : Inv8 ioD rstD s) : Inv8 ioD rstD (sampleBody etu rate ioV s) := by
  obtain ⟨hsb, hccs, hitems⟩ := hInv
  have hPB := processByte_inv8 etu rate ioD rstD s hetu hfl ⟨hsb, hccs, hitems⟩
  by_cases c1 : s.startBitIdx = -1
  · by_cases c2 : s.nextStartBitPos ≤ (s.pos : ℤ) ∧ ioV = 0
    · have hvs : ValidStart ioD rstD (s.pos : ℤ) :=
        ⟨s.pos, rfl, hpio, hprs, hrstV, by rw [← hio]; exact c2.2⟩
      simp only [sampleBody]
      rw [if_pos c1, if_pos c2]
      split_ifs <;>
        first
          | exact ⟨Or.inr ⟨hvs, le_refl _⟩, hccs, hitems⟩
          | (refine ⟨Or.inr ⟨hvs, le_refl _⟩, hccs, ?_⟩
             intro it hit
             rcases List.mem_append.mp hit with h | h
             · exact hitems it h
             · simp only [List.mem_singleton] at h
               subst h
               exact ⟨Or.inr (Or.inr hvs), Or.inl rfl⟩)
    · simp only [sampleBody]
      rw [if_pos c1, if_neg c2]
      exact ⟨hsb, hccs, hitems⟩
  · simp only [sampleBody]
    rw [if_neg c1]
    split_ifs <;>
      first
        | exact hPB
        | exact ⟨hsb, hccs, hitems⟩
        | (refine ⟨hsb, hccs, ?_⟩
           intro it hit
           rcases List.mem_append.mp hit with h | h
           · exact hitems it h
           · simp only [List.mem_singleton] at h
             subst h
             exact ⟨regStart ioD rstD s.pos s.startBitIdx hsb, Or.inl rfl⟩)

/-- One loop iteration preserves the index invariant. -/
theorem analyzeStep_inv8 (ioD rstD : List ℕ) (rate : ℕ) (etu : ℚ) (s : LoopState)
    (hetu : 0 ≤ etu) (hfl : 1 ≤ ⌊etu * (rate : ℚ)⌋)
    (hpio : s.pos < ioD.length) (hprs : s.pos < rstD.length)
    (hInv : Inv8 ioD rstD s) :
    Inv8 ioD rstD (analyzeStep ioD rstD rate etu s) := by
  by_cases hr : rstD.getD s.pos 0 = 1
  · have hb := sampleBody_inv8 etu rate (ioD.getD s.pos 0) ioD rstD
      { s with currIo := ioD.getD s.pos 0 } hetu hfl rfl hr hpio hprs hInv
    obtain ⟨a, b, c⟩ := hb
    simp only [analyzeStep]
    rw [if_pos hr]
    split_ifs <;>
      exact ⟨RegOk_succ ioD rstD _ _ a, RegOk_succ ioD rstD _ _ b, c⟩
  · obtain ⟨a, b, c⟩ := hInv
    simp only [analyzeStep]
    rw [if_neg hr]
    split_ifs <;>
      exact ⟨RegOk_succ ioD rstD _ _ a, RegOk_succ ioD rstD _ _ b, c⟩

/-- The whole loop preserves the index invariant. -/
theorem analyzeLoop_inv8 (ioD rstD : List ℕ) (rate : ℕ) (etu : ℚ)
    (hetu : 0 ≤ etu) (hfl : 1 ≤ ⌊etu * (rate : ℚ)⌋) :
    ∀ (n : ℕ) (s : LoopState), Inv8 ioD rstD s →
      Inv8 ioD rstD (analyzeLoop ioD rstD rate etu n s) := by
  intro n
  induction n with
  | zero => intro s h; exact h
  | succ m ih =>
    intro s h
    rw [analyzeLoop]
    split_ifs with h1 h2
    · exact h
    · exact h
    · refine ih _ (analyzeStep_inv8 ioD rstD rate etu s hetu hfl ?_ ?_ h) <;> omega

/-- Counterexample to C8 as stated.  With a sample rate below the
minimum, the single pre-transaction rate-error item carries
startIndex -1 (the untouched startBitIdx sentinel), not the claimed 0. -/
theorem claim_C8_counterexample :
    (analyze { ioSignalId := 0, rstSignalId := 1, clkFreq := 372 } [1] [1] 1).1
      = [⟨.errorRate, .intVal 0, "", -1, -1, .iccToTtl⟩] ∧
    ((-1 : ℤ) ≠ 0) := by
  constructor
  · norm_num [analyze, initialLoopState, cint, analyzeLoop]
    rw [if_neg (by decide : ¬(EmvProtocol.auto = EmvProtocol.t1))]
  · decide

/-- All items of a list satisfy the index contract. -/
def ItemsOk (ioD rstD : List ℕ) (l : List EmvItem) : Prop :=
  ∀ it ∈ l, ItemOk ioD rstD it

set_option maxHeartbeats 1600000 in
/-- C8 as amended.  Every item of a decode pass has a startIndex that
is the sample index of its start bit (a position where RESET is
asserted and the I/O line low), or -1 for the pre-transaction rate
error, or 0 for the pre-pass unsupported-protocol item; every stopIndex
is -1 or lies strictly beyond the startIndex, marking the end of the
frame. -/
theorem claim_C8_amended (cfg : EmvConfig) (ioD rstD : List ℕ) (rate : ℕ)
    (hclk : 1 ≤ cfg.clkFreq) :
    ∀ it ∈ (analyze cfg ioD rstD rate).1, ItemOk ioD rstD it := by
  have hclkQ : (0:ℚ) < (cfg.clkFreq : ℚ) := by
    have h0 : (0:ℤ) < cfg.clkFreq := by omega
    exact_mod_cast h0
  have hetu : (0:ℚ) ≤ 372 / (cfg.clkFreq : ℚ) := by positivity
  show ItemsOk ioD rstD (analyze cfg ioD rstD rate).1
  simp only [analyze]
  split_ifs with g1 g2 g3 <;>
    first
    | (intro it hit; simp at hit; done)
    | -- sufficient rate: the loop preserves the index invariant
      (intro it hit
       have hrate : ¬((rate : ℤ) < cint (1 + 1 / (372 / (cfg.clkFreq : ℚ) * (1 / 5)))) := by
         assumption
       push_neg at hrate
       rw [show cint (1 + 1 / (372 / (cfg.clkFreq : ℚ) * (1/5)))
           = ⌊1 + 1 / (372 / (cfg.clkFreq : ℚ) * (1/5))⌋
         from if_pos (by positivity)] at hrate
       have h2 : (1:ℚ) + 1 / (372 / (cfg.clkFreq : ℚ) * (1/5)) < (rate : ℚ) + 1 := by
         have ha := Int.lt_floor_add_one
           ((1:ℚ) + 1 / (372 / (cfg.clkFreq : ℚ) * (1/5)))
         have hb : ((⌊(1:ℚ) + 1 / (372 / (cfg.clkFreq : ℚ) * (1/5))⌋ : ℤ) : ℚ)
             ≤ (rate : ℚ) := by exact_mod_cast hrate
         linarith
       have h3 : 1 / (372 / (cfg.clkFreq : ℚ) * (1/5)) < (rate : ℚ) := by linarith
       have hpos5 : (0:ℚ) < 372 / (cfg.clkFreq : ℚ) * (1/5) := by positivity
       have hcancel : 1 / (372 / (cfg.clkFreq : ℚ) * (1/5))
           * (372 / (cfg.clkFreq : ℚ) * (1/5)) = 1 :=
         one_div_mul_cancel (ne_of_gt hpos5)
       have hfl : (1:ℤ) ≤ ⌊372 / (cfg.clkFreq : ℚ) * (rate : ℚ)⌋ := by
         rw [Int.le_floor]
         have hmul := mul_lt_mul_of_pos_right h3 hpos5
         rw [hcancel] at hmul
         push_cast
         nlinarith
       refine (analyzeLoop_inv8 ioD rstD rate _ hetu hfl _ _
         ⟨Or.inl rfl, Or.inl rfl, ?_⟩).2.2 it hit
       intro x hx
       simp only [initialLoopState] at hx
       (try split_ifs at hx) <;> simp at hx <;>
         (subst hx; exact ⟨Or.inr (Or.inl rfl), Or.inl rfl⟩))
    | -- sample rate too low: the loop is a no-op on the DONE state
      (rw [analyzeLoop_done _ _ _ _ _ _ (by simp)]
       intro it hit
       simp only [initialLoopState] at hit
       (try split_ifs at hit) <;> simp at hit <;>
         first
           | (subst hit; exact ⟨Or.inl rfl, Or.inl rfl⟩)
           | (rcases hit with hit | hit <;>
               first
                 | (subst hit; exact ⟨Or.inr (Or.inl rfl), Or.inl rfl⟩)
                 | (subst hit; exact ⟨Or.inl rfl, Or.inl rfl⟩))
       done)

/-- Witness for C8: at a concrete low sample rate the single emitted
item (the rate error) satisfies the index contract. -/
theorem claim_C8_witness :
    1 ≤ ({ ioSignalId := 0, rstSignalId := 1, clkFreq := 372 } : EmvConfig).clkFreq ∧
    ItemOk [1] [1] ⟨.errorRate, .intVal 0, "", -1, -1, .iccToTtl⟩ := by
  refine ⟨by decide, claim_C8_amended
    { ioSignalId := 0, rstSignalId := 1, clkFreq := 372 } [1] [1] 1 (by decide) _ ?_⟩
  have hl : (analyze { ioSignalId := 0, rstSignalId := 1, clkFreq := 372 } [1] [1] 1).1
      = [⟨.errorRate, .intVal 0, "", -1, -1, .iccToTtl⟩] := by
    norm_num [analyze, initialLoopState, cint, analyzeLoop]
    rw [if_neg (by decide : ¬(EmvProtocol.auto = EmvProtocol.t1))]
  rw [hl]
  simp

/-! ### C4: the direction-switch guard time -/

/-- The character-frame items of an item list. -/
def charFrames (l : List EmvItem) : List EmvItem :=
  l.filter (fun it => decide (it.type = ItemType.characterFrame))

/-- Guard relation between consecutive character frames: a direction
reversal requires at least the guard distance between start bits. -/
def GuardR (g : ℤ) (a b : EmvItem) : Prop :=
  b.direction ≠ a.direction → g ≤ b.startIdx - a.startIdx

theorem charFrames_append (l1 l2 : List EmvItem) :
    charFrames (l1 ++ l2) = charFrames l1 ++ charFrames l2 := by
  simp [charFrames]

theorem charFrames_nonframes (l : List EmvItem)
    (h : ∀ it ∈ l, it.type ≠ ItemType.characterFrame) : charFrames l = [] := by
  rw [charFrames, List.filter_eq_nil_iff]
  intro a ha
  simpa using h a ha

theorem charFrames_single_frame (it : EmvItem)
    (h : it.type = ItemType.characterFrame) : charFrames [it] = [it] := by
  simp [charFrames, h]

/-- The guard facts tracked about the most recent character frame: its
start bit is the last-start register, and while the machine runs the
data direction can only have moved away from it behind an armed
direction-switch flag (or, with a character in progress, after a
start bit that already cleared the guard distance). -/
def Inv4Tail (g : ℤ) (s : LoopState) : Prop :=
  charFrames s.items = [] ∨
  ∃ pre f, charFrames s.items = pre ++ [f] ∧ 0 ≤ f.startIdx ∧
    f.startIdx = s.lastStartBitIdx ∧
    (s.state ≠ .done → s.startBitIdx = -1 → s.expectDirectionSwitch = false →
      s.dataDirection = f.direction) ∧
    (s.state ≠ .done → s.startBitIdx ≠ -1 →
      (s.dataDirection = f.direction ∨ g + f.startIdx ≤ s.startBitIdx))

/-- Guard invariant of the decoding loop. -/
def Inv4 (g : ℤ) (s : LoopState) : Prop :=
  List.Chain' (GuardR g) (charFrames s.items) ∧
  (s.startBitIdx = -1 ∨ 0 ≤ s.startBitIdx) ∧
  Inv4Tail g s

/-- Weakened invariant after the sample body, before the
direction-switch arming at the bottom of the loop iteration: the
direction-agreement fact about the last frame may instead record that
the direction moved away from its value dd0 at the top of the
iteration (the bottom of the iteration then arms the flag). -/
def Inv4W (g : ℤ) (dd0 : DataDirection) (s : LoopState) : Prop :=
  List.Chain' (GuardR g) (charFrames s.items) ∧
  (s.startBitIdx = -1 ∨ 0 ≤ s.startBitIdx) ∧
  (charFrames s.items = [] ∨
   ∃ pre f, charFrames s.items = pre ++ [f] ∧ 0 ≤ f.startIdx ∧
     f.startIdx = s.lastStartBitIdx ∧
     (s.state ≠ .done → s.startBitIdx = -1 → s.expectDirectionSwitch = false →
       (s.dataDirection ≠ dd0 ∨ s.dataDirection = f.direction)) ∧
     (s.state ≠ .done → s.startBitIdx ≠ -1 →
       (s.dataDirection = f.direction ∨ g + f.startIdx ≤ s.startBitIdx)))

theorem Inv4W_of_inv4 (g : ℤ) (dd0 : DataDirection) (s : LoopState)
    (h : Inv4 g s) : Inv4W g dd0 s := by
  obtain ⟨hch, h0, htail⟩ := h
  refine ⟨hch, h0, ?_⟩
  rcases htail with h | ⟨pre, f, hpre, hf0, hfl, h4, h5⟩
  · exact Or.inl h
  · exact Or.inr ⟨pre, f, hpre, hf0, hfl, fun a b c => Or.inr (h4 a b c), h5⟩

theorem processByte_inv4 (g : ℤ) (etu : ℚ) (rate : ℕ) (s : LoopState)
    (hInv : Inv4 g s) (hs : s.state ≠ .done) (hsb : s.startBitIdx ≠ -1) :
    Inv4W g s.dataDirection (processByte etu rate s) := by
  obtain ⟨hch, h0, htail⟩ := hInv
  rcases processByte_frames etu rate s with
    ⟨e, hi, het, hls, hsb2, hsd⟩ | ⟨l, f2, hi, hl, hft, hfd, hfs, hls, hsb2⟩
  · have hcf : charFrames (processByte etu rate s).items = charFrames s.items := by
      rw [hi, charFrames_append, charFrames_nonframes [e] (by simpa using het),
        List.append_nil]
    refine ⟨hcf ▸ hch, by rw [hsb2]; exact h0, ?_⟩
    rcases htail with h | ⟨pre, f, hpre, hf0, hfl, h4, h5⟩
    · exact Or.inl (hcf ▸ h)
    · refine Or.inr ⟨pre, f, hcf ▸ hpre, hf0, hls ▸ hfl, ?_, ?_⟩
      · intro _ hsbe _
        rw [hsb2] at hsbe
        exact absurd hsbe hsb
      · intro hnd _
        rcases hsd with hdone | hdir
        · exact absurd hdone hnd
        · rw [hdir, hsb2]
          exact h5 hs hsb
  · have hcf : charFrames (processByte etu rate s).items
        = charFrames s.items ++ [f2] := by
      rw [hi, charFrames_append, charFrames_append, charFrames_nonframes l hl,
        charFrames_single_frame f2 hft, List.append_nil]
    have hf20 : 0 ≤ f2.startIdx := by
      rw [hfs]
      exact h0.resolve_left hsb
    refine ⟨?_, by rw [hsb2]; exact Or.inl rfl, ?_⟩
    · rw [hcf]
      refine List.Chain'.append hch (List.chain'_singleton f2) ?_
      intro x hx y hy
      simp at hy
      subst hy
      rcases htail with h | ⟨pre, f, hpre, hf0, hfl, h4, h5⟩
      · rw [h] at hx
        simp at hx
      · rw [hpre, List.getLast?_concat] at hx
        simp at hx
        subst hx
        intro hne
        rcases h5 hs hsb with hd | hgap
        · rw [hfd, hd] at hne
          exact absurd rfl hne
        · rw [hfs]
          omega
    · refine Or.inr ⟨charFrames s.items, f2, hcf, hf20, by rw [hls, hfs], ?_, ?_⟩
      · intro _ _ _
        by_cases hde : (processByte etu rate s).dataDirection = s.dataDirection
        · exact Or.inr (by rw [hde, hfd])
        · exact Or.inl hde
      · intro _ hsbe
        rw [hsb2] at hsbe
        exact absurd rfl hsbe

theorem sampleBody_inv4 (etu : ℚ) (rate : ℕ) (ioV : ℕ) (s : LoopState)
    (hInv : Inv4 (cint (16 * etu * (rate : ℚ))) s) (hs : s.state ≠ .done) :
    Inv4W (cint (16 * etu * (rate : ℚ))) s.dataDirection (sampleBody etu rate ioV s) := by
  obtain ⟨hch, h0, htail⟩ := hInv
  simp only [sampleBody]
  split_ifs with c1 c2 c3 c4 c5 c6 c7 c8 c9
  · -- armed detection, guard violated: DONE plus one non-frame item
    have hone : charFrames
        [(⟨.errorDirectionGuardTime, .intVal 0, "", (s.pos : ℤ), -1, s.dataDirection⟩ : EmvItem)]
        = [] := charFrames_nonframes _ (by simp)
    have hcf : charFrames (s.items ++
        [⟨.errorDirectionGuardTime, .intVal 0, "", (s.pos : ℤ), -1, s.dataDirection⟩])
        = charFrames s.items := by
      rw [charFrames_append, hone, List.append_nil]
    refine ⟨by simpa [hcf] using hch, by simp, ?_⟩
    rcases htail with h | ⟨pre, f, hpre, hf0, hfl, h4, h5⟩
    · exact Or.inl (by simpa [hcf] using h)
    · refine Or.inr ⟨pre, f, by simpa [hcf] using hpre, hf0, by simpa using hfl, ?_, ?_⟩
      · intro hnd
        simp at hnd
      · intro hnd
        simp at hnd
  · -- armed detection, guard satisfied: character starts at pos
    have hflag : ¬(s.lastStartBitIdx ≠ -1 ∧
        (s.pos : ℤ) - s.lastStartBitIdx < cint (16 * etu * (rate : ℚ))) := c4
    refine ⟨by simpa using hch, by simp, ?_⟩
    rcases htail with h | ⟨pre, f, hpre, hf0, hfl, h4, h5⟩
    · exact Or.inl (by simpa using h)
    · refine Or.inr ⟨pre, f, by simpa using hpre, hf0, by simpa using hfl, ?_, ?_⟩
      · intro _ hsbe
        simp at hsbe
      · intro _ _
        simp only
        rcases not_and_or.mp hflag with hl1 | hlt
        · push_neg at hl1
          rw [hl1] at hfl
          omega
        · push_neg at hlt
          refine Or.inr ?_
          omega
  · -- unarmed detection: the last frame has the current direction
    have hfl0 : s.expectDirectionSwitch = false := by simpa using c3
    refine ⟨by simpa using hch, by simp, ?_⟩
    rcases htail with h | ⟨pre, f, hpre, hf0, hfl, h4, h5⟩
    · exact Or.inl (by simpa using h)
    · refine Or.inr ⟨pre, f, by simpa using hpre, hf0, by simpa using hfl, ?_, ?_⟩
      · intro _ hsbe
        simp at hsbe
      · intro _ _
        simp only
        exact Or.inl (h4 hs c1 hfl0)
  · -- no start bit at this sample
    exact Inv4W_of_inv4 _ _ _ ⟨hch, h0, htail⟩
  · -- data bit, inverse convention, low sample
    exact Inv4W_of_inv4 _ _ _ ⟨hch, h0, htail⟩
  · -- data bit, inverse convention, high sample
    exact Inv4W_of_inv4 _ _ _ ⟨hch, h0, htail⟩
  · -- data bit, direct convention
    exact Inv4W_of_inv4 _ _ _ ⟨hch, h0, htail⟩
  · -- parity bit accepted: full byte processing
    exact processByte_inv4 _ etu rate s ⟨hch, h0, htail⟩ hs c1
  · -- parity error: DONE plus one non-frame item
    have hone : charFrames
        [(⟨.errorParity, .intVal 0, "", s.startBitIdx, -1, s.dataDirection⟩ : EmvItem)]
        = [] := charFrames_nonframes _ (by simp)
    have hcf : charFrames (s.items ++
        [⟨.errorParity, .intVal 0, "", s.startBitIdx, -1, s.dataDirection⟩])
        = charFrames s.items := by
      rw [charFrames_append, hone, List.append_nil]
    refine ⟨by simpa [hcf] using hch, by simpa using h0, ?_⟩
    rcases htail with h | ⟨pre, f, hpre, hf0, hfl, h4, h5⟩
    · exact Or.inl (by simpa [hcf] using h)
    · refine Or.inr ⟨pre, f, by simpa [hcf] using hpre, hf0, by simpa using hfl, ?_, ?_⟩
      · intro hnd
        simp at hnd
      · intro hnd
        simp at hnd
  · -- parity bit out of rank: no change
    exact Inv4W_of_inv4 _ _ _ ⟨hch, h0, htail⟩
  · -- sample out of tolerance: no change
    exact Inv4W_of_inv4 _ _ _ ⟨hch, h0, htail⟩

theorem Inv4_arm (g : ℤ) (dd0 : DataDirection) (t : LoopState)
    (h : Inv4W g dd0 t) (p : ℕ) :
    Inv4 g { t with expectDirectionSwitch := true, pos := p } := by
  obtain ⟨hch, h0, htail⟩ := h
  refine ⟨hch, h0, ?_⟩
  rcases htail with h | ⟨pre, f, hpre, hf0, hfl, h4, h5⟩
  · exact Or.inl h
  · refine Or.inr ⟨pre, f, hpre, hf0, hfl, ?_, h5⟩
    intro _ _ hfe
    simp at hfe

theorem Inv4_noarm (g : ℤ) (dd0 : DataDirection) (t : LoopState)
    (h : Inv4W g dd0 t) (hdd : t.dataDirection = dd0) (p : ℕ) :
    Inv4 g { t with pos := p } := by
  obtain ⟨hch, h0, htail⟩ := h
  refine ⟨hch, h0, ?_⟩
  rcases htail with h | ⟨pre, f, hpre, hf0, hfl, h4, h5⟩
  · exact Or.inl h
  · refine Or.inr ⟨pre, f, hpre, hf0, hfl, ?_, h5⟩
    intro a b c
    rcases h4 a b c with hne | heq
    · exact absurd hdd hne
    · exact heq

theorem analyzeStep_inv4 (ioD rstD : List ℕ) (rate : ℕ) (etu : ℚ) (s : LoopState)
    (hInv : Inv4 (cint (16 * etu * (rate : ℚ))) s) (hs : s.state ≠ .done) :
    Inv4 (cint (16 * etu * (rate : ℚ))) (analyzeStep ioD rstD rate etu s) := by
  simp only [analyzeStep]
  split_ifs with c1 c2 c2
  · exact Inv4_arm _ _
      (sampleBody etu rate (ioD.getD s.pos 0) { s with currIo := ioD.getD s.pos 0 })
      (sampleBody_inv4 etu rate (ioD.getD s.pos 0)
        { s with currIo := ioD.getD s.pos 0 } hInv hs) _
  · exact Inv4_noarm _ _
      (sampleBody etu rate (ioD.getD s.pos 0) { s with currIo := ioD.getD s.pos 0 })
      (sampleBody_inv4 etu rate (ioD.getD s.pos 0)
        { s with currIo := ioD.getD s.pos 0 } hInv hs) (not_not.mp c2) _
  · exact absurd rfl c2
  · exact Inv4_noarm _ _ s (Inv4W_of_inv4 _ _ _ hInv) rfl _

theorem analyzeLoop_inv4 (ioD rstD : List ℕ) (rate : ℕ) (etu : ℚ) :
    ∀ (n : ℕ) (s : LoopState), Inv4 (cint (16 * etu * (rate : ℚ))) s →
      Inv4 (cint (16 * etu * (rate : ℚ))) (analyzeLoop ioD rstD rate etu n s) := by
  intro n
  induction n with
  | zero => intro s h; exact h
  | succ m ih =>
    intro s h
    rw [analyzeLoop]
    split_ifs with h1 h2
    · exact h
    · exact h
    · exact ih _ (analyzeStep_inv4 ioD rstD rate etu s h h1)

theorem Inv4_init (g : ℤ) (s : LoopState) (h : charFrames s.items = [])
    (hsb : s.startBitIdx = -1) : Inv4 g s :=
  ⟨h ▸ List.chain'_nil, Or.inl hsb, Or.inl h⟩

set_option maxHeartbeats 1600000 in
/-- C4: consecutive character frames of a decode pass that reverse the
data direction have start bits at least the 16-ETU direction guard
distance apart. -/
theorem claim_C4 (cfg : EmvConfig) (ioD rstD : List ℕ) (rate : ℕ) :
    List.Chain' (GuardR (cint (16 * (372 / (cfg.clkFreq : ℚ)) * (rate : ℚ))))
      (charFrames (analyze cfg ioD rstD rate).1) := by
  simp only [analyze]
  split_ifs with g1 g2 g3 <;>
    first
    | exact List.chain'_nil
    | (refine (analyzeLoop_inv4 ioD rstD rate _ _ _
          (Inv4_init _ _ (charFrames_nonframes _ ?_) rfl)).1
       intro it hit
       simp only [initialLoopState] at hit
       (try split_ifs at hit) <;> simp at hit <;>
         first
           | (subst hit; simp)
           | (rcases hit with hit | hit <;> subst hit <;> simp)
       done)

end LabtoolEmv
